import Mathlib

/-!
# The Wayland protocol scanner (`scanner.c`)

A shallow embedding of `scanner.c` and theorems about it.

Modelling conventions.

* A C string is a Lean `String`; `strcmp (a, b) == 0` is `a = b`, `strdup` is the
  identity. C strings hold no NUL character.
* The intrusive `wl_list` (a circular doubly linked list) is a Lean `List`;
  `wl_list_insert (list.prev, elm)` appends `elm` at the tail, `wl_list_for_each`
  visits the elements head to tail, `wl_list_empty` is `List.isEmpty`.
* A pointer into the protocol tree is the path to the pointee: a
  `struct interface *` is an index into `protocol.interface_list`, a
  `struct message *` is a `message_ref`. Lists only grow at the tail, so a path keeps
  naming the same node. An uninitialised pointer (`ctx.interface` and `ctx.message`
  in `main` before the first element) is `none`; reading through it, like every other
  undefined behaviour, is the result `failure.undefined_behavior`.
* Standard output is the sequence of `printf` calls made, each kept with its format
  string and arguments; `printf_call.text` expands one call and `stdout_text` the
  whole sequence. An emitter returns the calls it makes, in order.
* `exit` after a diagnostic on standard error is the result `failure.exit`.
* The expat parser is the source of element-open events: the standard input is
  given as the list of `(element_name, atts)` pairs the parser reports, `atts` being
  the attribute name/value pairs.
* `int` values are `Int`; message lists are shorter than `2 ^ 31`, so the opcode
  counter never overflows.
-/

namespace Scanner

/-! ## Data model (`scanner.c` lines 59-99) -/

/-- The enumeration `enum arg_type`. -/
inductive arg_type where
  | NEW_ID
  | INT
  | UNSIGNED
  | STRING
  | OBJECT
  | ARRAY
deriving DecidableEq

/-- The record `struct arg`. `object_name` is written only for `OBJECT` arguments; `malloc`
leaves it uninitialised (`none`) for the other kinds. -/
structure arg where
  name : String
  type : arg_type
  object_name : Option String
deriving DecidableEq

/-- The record `struct message`. -/
structure message where
  name : String
  uppercase_name : String
  arg_list : List arg
deriving DecidableEq

/-- The record `struct interface`. -/
structure interface where
  name : String
  uppercase_name : String
  version : Int
  request_list : List message
  event_list : List message
deriving DecidableEq

/-- The record `struct protocol`. -/
structure protocol where
  interface_list : List interface
deriving DecidableEq

/-- Which member of a `struct interface` a `struct wl_list *message_list` points to. -/
inductive message_list_ref where
  | request_list
  | event_list
deriving DecidableEq

/-- Dereference a message list pointer relative to its interface. -/
def interface.message_list (i : interface) : message_list_ref → List message
  | .request_list => i.request_list
  | .event_list => i.event_list

/-- Store through a message list pointer relative to its interface. -/
def interface.set_message_list (i : interface) (r : message_list_ref)
    (l : List message) : interface :=
  match r with
  | .request_list => { i with request_list := l }
  | .event_list => { i with event_list := l }

/-- A `struct message *` into the protocol tree: the index of the owning interface, the
list of that interface the message is linked in, and its index in that list. -/
structure message_ref where
  interface : Nat
  list : message_list_ref
  index : Nat
deriving DecidableEq

/-- The record `struct parse_context`. -/
structure parse_context where
  protocol : protocol
  interface : Option Nat
  message : Option message_ref
deriving DecidableEq

/-- The message a `struct message *` points to, if the pointer is valid. -/
def protocol.message_at (p : protocol) (r : message_ref) : Option message :=
  match p.interface_list[r.interface]? with
  | none => none
  | some i => (i.message_list r.list)[r.index]?

/-! ## Libc -/

/-- Libc `toupper` in the "C" locale (the scanner never calls `setlocale`): the letters
`a` to `z` go to `A` to `Z`, every other character, also outside ASCII, is left as it
is. -/
def toupper (c : Char) : Char :=
  if 97 ≤ c.toNat ∧ c.toNat ≤ 122 then Char.ofNat (c.toNat - 32) else c

/-- Libc `isspace` in the "C" locale: space, `\t`, `\n`, `\v`, `\f`, `\r`. -/
def isspace (c : Char) : Bool :=
  c.toNat = 32 ∨ (9 ≤ c.toNat ∧ c.toNat ≤ 13)

/-- Libc `isdigit`. -/
def isdigit (c : Char) : Bool :=
  48 ≤ c.toNat ∧ c.toNat ≤ 57

/-- The digit loop of `strtol` in base 10: the value of the longest prefix of digits. -/
def strtol_digits : List Char → Nat → Nat
  | [], acc => acc
  | c :: rest, acc =>
    if isdigit c then strtol_digits rest (acc * 10 + (c.toNat - 48)) else acc

/-- Libc `strtol (nptr, NULL, 10)` with a 64-bit `long`: leading white space, an optional
sign, decimal digits; the result saturates at `LONG_MIN` and `LONG_MAX`. -/
def strtol (nptr : String) : Int :=
  let v : Int :=
    match nptr.data.dropWhile isspace with
    | '-' :: ds => - (strtol_digits ds 0 : Int)
    | '+' :: ds => (strtol_digits ds 0 : Int)
    | ds => (strtol_digits ds 0 : Int)
  if v < -(2 : Int) ^ 63 then -(2 : Int) ^ 63
  else if (2 : Int) ^ 63 - 1 < v then (2 : Int) ^ 63 - 1
  else v

/-- Libc `atoi`, which is `(int) strtol (nptr, NULL, 10)`: the conversion to a 32-bit `int`
keeps the low 32 bits in two's complement. -/
def atoi (nptr : String) : Int :=
  (strtol nptr + 2 ^ 31) % 2 ^ 32 - 2 ^ 31

/-- The status `EXIT_FAILURE`. -/
def EXIT_FAILURE : Int := 1

/-! ## Standard output -/

/-- One variadic argument of a `printf` call: a `%s` string or a `%d` int. -/
inductive printf_arg where
  | s (v : String)
  | d (v : Int)
deriving DecidableEq

/-- One call of `printf`: the format string and the arguments. -/
structure printf_call where
  printf ::
  fmt : String
  args : List printf_arg
deriving DecidableEq

export printf_call (printf)

/-- Expansion of a format string: `%s` and `%d` consume one argument each, every other
character is copied. (No format string of the scanner uses another directive.) -/
def format : List Char → List printf_arg → List Char
  | '%' :: 's' :: fmt, printf_arg.s v :: args => v.data ++ format fmt args
  | '%' :: 'd' :: fmt, printf_arg.d v :: args => (toString v).data ++ format fmt args
  | c :: fmt, args => c :: format fmt args
  | [], _ => []

/-- The characters one `printf` call writes. -/
def printf_call.text (c : printf_call) : String :=
  String.mk (format c.fmt.data c.args)

/-- The text on standard output after a sequence of `printf` calls. -/
def stdout_text (out : List printf_call) : String :=
  String.join (out.map printf_call.text)

/-! ## `scanner.c` lines 27-55 -/

/-- The constant `copyright`. -/
def copyright : String :=
  "/*\n" ++
  " * Copyright © 2010 Kristian Høgsberg\n" ++
  " *\n" ++
  " * Permission to use, copy, modify, distribute, and sell this software and its\n" ++
  " * documentation for any purpose is hereby granted without fee, provided that\n" ++
  " * the above copyright notice appear in all copies and that both that copyright\n" ++
  " * notice and this permission notice appear in supporting documentation, and\n" ++
  " * that the name of the copyright holders not be used in advertising or\n" ++
  " * publicity pertaining to distribution of the software without specific,\n" ++
  " * written prior permission.  The copyright holders make no representations\n" ++
  " * about the suitability of this software for any purpose.  It is provided \"as\n" ++
  " * is\" without express or implied warranty.\n" ++
  " *\n" ++
  " * THE COPYRIGHT HOLDERS DISCLAIM ALL WARRANTIES WITH REGARD TO THIS SOFTWARE,\n" ++
  " * INCLUDING ALL IMPLIED WARRANTIES OF MERCHANTABILITY AND FITNESS, IN NO\n" ++
  " * EVENT SHALL THE COPYRIGHT HOLDERS BE LIABLE FOR ANY SPECIAL, INDIRECT OR\n" ++
  " * CONSEQUENTIAL DAMAGES OR ANY DAMAGES WHATSOEVER RESULTING FROM LOSS OF USE,\n" ++
  " * DATA OR PROFITS, WHETHER IN AN ACTION OF CONTRACT, NEGLIGENCE OR OTHER\n" ++
  " * TORTIOUS ACTION, ARISING OUT OF OR IN CONNECTION WITH THE USE OR PERFORMANCE\n" ++
  " * OF THIS SOFTWARE.\n" ++
  " */\n"

/-- How a run of the program ends before `main` returns. -/
inductive failure where
  | exit (diagnostic : String) (status : Int)
  | undefined_behavior
deriving DecidableEq

/-! ## `uppercase_dup` (lines 101-113) -/

/-- The function `uppercase_dup`: a copy of `src` with `toupper` applied to every character. -/
def uppercase_dup (src : String) : String :=
  String.mk (src.data.map toupper)

/-! ## `start_element` (lines 115-199) -/

/-- The locals `name`, `type` and `version` of `start_element`; a null pointer is `none`. -/
structure atts_vars where
  name : Option String
  type : Option String
  version : Int
deriving DecidableEq

/-- The attribute loop of `start_element` (lines 128-135): each attribute called `name`,
`version` or `type` overwrites the local of that name. -/
def scan_atts : List (String × String) → atts_vars → atts_vars
  | [], v => v
  | (att, value) :: rest, v =>
    let v := if att = "name" then { v with name := some value } else v
    let v := if att = "version" then { v with version := atoi value } else v
    let v := if att = "type" then { v with type := some value } else v
    scan_atts rest v

/-- The `arg` branch's choice of kind (lines 181-194): exact comparison of the type string,
`OBJECT` with the string kept as `object_name` when nothing matches. -/
def arg_of_type (name type : String) : arg :=
  if type = "new_id" then { name := name, type := .NEW_ID, object_name := none }
  else if type = "int" then { name := name, type := .INT, object_name := none }
  else if type = "uint" then { name := name, type := .UNSIGNED, object_name := none }
  else if type = "string" then { name := name, type := .STRING, object_name := none }
  else if type = "array" then { name := name, type := .ARRAY, object_name := none }
  else { name := name, type := .OBJECT, object_name := some type }

/-- The callback `start_element`, which expat calls for each element it opens. -/
def start_element (ctx : parse_context) (element_name : String)
    (atts : List (String × String)) : Except failure parse_context :=
  let v := scan_atts atts { name := none, type := none, version := 0 }
  if element_name = "interface" then
    match v.name with
    | none => .error (.exit "no interface name given\n" EXIT_FAILURE)
    | some name =>
      if v.version = 0 then
        .error (.exit "no interface version given\n" EXIT_FAILURE)
      else
        let interface : interface :=
          { name := name, uppercase_name := uppercase_dup name, version := v.version,
            request_list := [], event_list := [] }
        .ok { protocol := { interface_list := ctx.protocol.interface_list ++ [interface] },
              interface := some ctx.protocol.interface_list.length,
              message := ctx.message }
  else if element_name = "request" ∨ element_name = "event" then
    match v.name with
    | none => .error (.exit "no request name given\n" EXIT_FAILURE)
    | some name =>
      let message : message :=
        { name := name, uppercase_name := uppercase_dup name, arg_list := [] }
      match ctx.interface with
      | none => .error .undefined_behavior
      | some p =>
        match ctx.protocol.interface_list[p]? with
        | none => .error .undefined_behavior
        | some i =>
          if element_name = "request" then
            let i1 : Scanner.interface := { i with request_list := i.request_list ++ [message] }
            .ok { protocol := { interface_list := ctx.protocol.interface_list.set p i1 },
                  interface := ctx.interface,
                  message := some { interface := p, list := .request_list,
                                    index := i.request_list.length } }
          else
            let i1 : Scanner.interface := { i with event_list := i.event_list ++ [message] }
            .ok { protocol := { interface_list := ctx.protocol.interface_list.set p i1 },
                  interface := ctx.interface,
                  message := some { interface := p, list := .event_list,
                                    index := i.event_list.length } }
  else if element_name = "arg" then
    match v.name with
    | none => .error .undefined_behavior
    | some name =>
      match v.type with
      | none => .error .undefined_behavior
      | some type =>
        let arg := arg_of_type name type
        match ctx.message with
        | none => .error .undefined_behavior
        | some r =>
          match ctx.protocol.interface_list[r.interface]? with
          | none => .error .undefined_behavior
          | some i =>
            match (i.message_list r.list)[r.index]? with
            | none => .error .undefined_behavior
            | some m =>
              let m1 : Scanner.message := { m with arg_list := m.arg_list ++ [arg] }
              let i1 := i.set_message_list r.list ((i.message_list r.list).set r.index m1)
              .ok { protocol :=
                      { interface_list := ctx.protocol.interface_list.set r.interface i1 },
                    interface := ctx.interface,
                    message := ctx.message }
  else
    .ok ctx

/-- The parse loop of `main` (lines 420-430): expat calls `start_element` for each element
of the input, in document order; `exit` inside the callback ends the run. -/
def parse : parse_context → List (String × List (String × String)) →
    Except failure parse_context
  | ctx, [] => .ok ctx
  | ctx, (element_name, atts) :: rest =>
    match start_element ctx element_name atts with
    | .error e => .error e
    | .ok ctx => parse ctx rest

/-- The parse context `main` starts with (lines 410-411): an empty interface list, the
two cursors uninitialised. -/
def initial_context : parse_context :=
  { protocol := { interface_list := [] }, interface := none, message := none }

/-! ## `emit_opcodes` (lines 201-216) -/

/-- The loop of `emit_opcodes` (lines 211-213), started with the counter `opcode`: one
`#define` per message, the counter incremented after each. -/
def emit_opcodes_loop (interface : interface) : List message → Int → List printf_call
  | [], _ => []
  | m :: rest, opcode =>
    printf "#define WL_%s_%s\t%d\n"
        [.s interface.uppercase_name, .s m.uppercase_name, .d opcode]
      :: emit_opcodes_loop interface rest (opcode + 1)

/-- The function `emit_opcodes`. -/
def emit_opcodes (message_list : List message) (interface : interface) : List printf_call :=
  if message_list.isEmpty then []
  else emit_opcodes_loop interface message_list 0 ++ [printf "\n" []]

/-! ## `emit_structs` (lines 218-272) -/

/-- The switch of `emit_structs` on the kind of an argument (lines 244-262). `object_name`
is read for `OBJECT` arguments only, for which `start_element` has set it. -/
def emit_structs_type (a : arg) : printf_call :=
  match a.type with
  | .INT => printf "int32_t " []
  | .NEW_ID => printf "uint32_t " []
  | .UNSIGNED => printf "uint32_t " []
  | .STRING => printf "const char *" []
  | .OBJECT => printf "struct wl_%s *" [.s (a.object_name.getD "")]
  | .ARRAY => printf "struct wl_array *" []

/-- The argument loop of `emit_structs` (lines 243-266); `a->link.next == &m->arg_list`
holds for the last argument of the list. -/
def emit_structs_args : List arg → List printf_call
  | [] => []
  | a :: rest =>
    emit_structs_type a
      :: printf "%s%s" [.s a.name, .s (if rest.isEmpty then "" else ", ")]
      :: emit_structs_args rest

/-- The body of the message loop of `emit_structs` (lines 230-268). -/
def emit_structs_message (is_interface : Bool) (interface : interface) (m : message) :
    List printf_call :=
  [printf "\tvoid (*%s)(" [.s m.name]]
    ++ [if is_interface then
          printf "struct wl_client *client, struct wl_%s *%s"
            [.s interface.name, .s interface.name]
        else
          printf "void *data, struct wl_%s *%s" [.s interface.name, .s interface.name]]
    ++ (if !m.arg_list.isEmpty then [printf ", " []] else [])
    ++ emit_structs_args m.arg_list
    ++ [printf ");\n" []]

/-- The message loop of `emit_structs` (lines 229-269). -/
def emit_structs_loop (is_interface : Bool) (interface : interface) :
    List message → List printf_call
  | [] => []
  | m :: rest =>
    emit_structs_message is_interface interface m
      ++ emit_structs_loop is_interface interface rest

/-- The function `emit_structs`. `message_list` points to one of the two lists of
`interface`. -/
def emit_structs (message_list : message_list_ref) (interface : interface) :
    List printf_call :=
  let is_interface : Bool := message_list = .request_list
  [printf "struct wl_%s_%s \x7b\n"
      [.s interface.name, .s (if is_interface then "interface" else "listener")]]
    ++ emit_structs_loop is_interface interface (interface.message_list message_list)
    ++ [printf "\x7d;\n\n" []]

/-! ## `emit_header` (lines 274-315) -/

/-- The first loop of `emit_header` (lines 291-292): the forward declarations. -/
def emit_header_declarations : List interface → List printf_call
  | [] => []
  | i :: rest => printf "struct wl_%s;\n" [.s i.name] :: emit_header_declarations rest

/-- The body of the second loop of `emit_header` (lines 297-307). -/
def emit_header_interface (server : Int) (i : interface) : List printf_call :=
  (if server ≠ 0 then
      emit_structs .request_list i ++ emit_opcodes i.event_list i
    else
      emit_structs .event_list i ++ emit_opcodes i.request_list i)
    ++ [printf "extern const struct wl_interface wl_%s_interface;\n\n" [.s i.name]]

/-- The second loop of `emit_header` (lines 295-308). -/
def emit_header_loop (server : Int) : List interface → List printf_call
  | [] => []
  | i :: rest => emit_header_interface server i ++ emit_header_loop server rest

/-- The function `emit_header`. -/
def emit_header (protocol : protocol) (server : Int) : List printf_call :=
  [printf ("%s\n\n" ++
           "#ifndef WAYLAND_PROTOCOL_H\n" ++
           "#define WAYLAND_PROTOCOL_H\n" ++
           "\n" ++
           "#ifdef  __cplusplus\n" ++
           "extern \"C\" \x7b\n" ++
           "#endif\n" ++
           "\n" ++
           "#include <stdint.h>\n" ++
           "#include \"wayland-util.h\"\n\n" ++
           "struct wl_client;\n\n") [.s copyright]]
    ++ emit_header_declarations protocol.interface_list
    ++ [printf "\n" []]
    ++ emit_header_loop server protocol.interface_list
    ++ [printf ("#ifdef  __cplusplus\n" ++
                "\x7d\n" ++
                "#endif\n" ++
                "\n" ++
                "#endif\n") []]

/-! ## `emit_messages` (lines 317-360) -/

/-- The switch of `emit_messages` on the kind of an argument (lines 334-354). -/
def emit_messages_type (a : arg) : printf_call :=
  match a.type with
  | .INT => printf "i" []
  | .NEW_ID => printf "n" []
  | .UNSIGNED => printf "u" []
  | .STRING => printf "s" []
  | .OBJECT => printf "o" []
  | .ARRAY => printf "a" []

/-- The argument loop of `emit_messages` (lines 333-355): the signature of a message. -/
def emit_messages_args : List arg → List printf_call
  | [] => []
  | a :: rest => emit_messages_type a :: emit_messages_args rest

/-- The body of the message loop of `emit_messages` (lines 332-356): one table row. -/
def emit_messages_message (m : message) : List printf_call :=
  [printf "\t\x7b \"%s\", \"" [.s m.name]]
    ++ emit_messages_args m.arg_list
    ++ [printf "\" \x7d,\n" []]

/-- The message loop of `emit_messages` (lines 331-357). -/
def emit_messages_loop : List message → List printf_call
  | [] => []
  | m :: rest => emit_messages_message m ++ emit_messages_loop rest

/-- The function `emit_messages`. -/
def emit_messages (message_list : List message) (interface : interface)
    (suffix : String) : List printf_call :=
  if message_list.isEmpty then []
  else
    [printf "static const struct wl_message %s_%s[] = \x7b\n" [.s interface.name, .s suffix]]
      ++ emit_messages_loop message_list
      ++ [printf "\x7d;\n\n" []]

/-! ## `emit_code` (lines 362-397) -/

/-- The request fields of the interface descriptor (lines 383-387). -/
def emit_code_requests (i : interface) : printf_call :=
  if !i.request_list.isEmpty then
    printf "\tARRAY_LENGTH(%s_requests), %s_requests,\n" [.s i.name, .s i.name]
  else
    printf "\t0, NULL,\n" []

/-- The event fields of the interface descriptor (lines 389-393). -/
def emit_code_events (i : interface) : printf_call :=
  if !i.event_list.isEmpty then
    printf "\tARRAY_LENGTH(%s_events), %s_events,\n" [.s i.name, .s i.name]
  else
    printf "\t0, NULL,\n" []

/-- The body of the loop of `emit_code` (lines 375-395). -/
def emit_code_interface (i : interface) : List printf_call :=
  emit_messages i.request_list i "requests"
    ++ emit_messages i.event_list i "events"
    ++ [printf ("WL_EXPORT const struct wl_interface " ++
                "wl_%s_interface = \x7b\n" ++
                "\t\"%s\", %d,\n") [.s i.name, .s i.name, .d i.version]]
    ++ [emit_code_requests i]
    ++ [emit_code_events i]
    ++ [printf "\x7d;\n\n" []]

/-- The loop of `emit_code` (lines 373-396). -/
def emit_code_loop : List interface → List printf_call
  | [] => []
  | i :: rest => emit_code_interface i ++ emit_code_loop rest

/-- The function `emit_code`. -/
def emit_code (protocol : protocol) : List printf_call :=
  [printf ("%s\n\n" ++
           "#include <stdlib.h>\n" ++
           "#include <stdint.h>\n" ++
           "#include \"wayland-util.h\"\n\n") [.s copyright]]
    ++ emit_code_loop protocol.interface_list

/-! ## `usage` and `main` (lines 50-55 and 399-443) -/

/-- What a run of the program leaves behind when it ends in a defined way. -/
structure process_result where
  stdout : List printf_call
  stderr : List String
  status : Int
deriving DecidableEq

/-- The end of a run by `failure`. After `exit` nothing is on standard output (every `exit`
of the program comes before its first `printf`), the diagnostic is on standard error and
the status is the argument of `exit`. Undefined behaviour leaves no defined result. -/
def failure.result : failure → Option process_result
  | .exit diagnostic status => some { stdout := [], stderr := [diagnostic], status := status }
  | .undefined_behavior => none

/-- The function `usage`: the usage line on standard error, then `exit (ret)`. -/
def usage (ret : Int) : failure :=
  .exit "usage: ./scanner [header|code]\n" ret

/-- The function `main`. `argv` holds the program name and the arguments (`argc` is its
length), `input` the elements expat reports for the standard input. The result is `none`
when the run has undefined behaviour. -/
def main (argv : List String) (input : List (String × List (String × String))) :
    Option process_result :=
  if argv.length ≠ 2 then (usage EXIT_FAILURE).result
  else
    match parse initial_context input with
    | .error e => e.result
    | .ok ctx =>
      if argv[1]? = some "client-header" then
        some { stdout := emit_header ctx.protocol 0, stderr := [], status := 0 }
      else if argv[1]? = some "server-header" then
        some { stdout := emit_header ctx.protocol 1, stderr := [], status := 0 }
      else if argv[1]? = some "code" then
        some { stdout := emit_code ctx.protocol, stderr := [], status := 0 }
      else
        some { stdout := [], stderr := [], status := 0 }

/-! ## Notions of the specification -/

/-- The wire signature character of a kind, as tabulated in section 4.2 of the
specification. -/
def spec_signature_char : arg_type → Char
  | .INT => 'i'
  | .NEW_ID => 'n'
  | .UNSIGNED => 'u'
  | .STRING => 's'
  | .OBJECT => 'o'
  | .ARRAY => 'a'

/-- The value of the attribute `key` in an attribute list, `none` when the list has no
attribute of that name. (XML allows a name once per element; were it repeated, the last
occurrence counts, as in the attribute loop.) -/
def att_value : List (String × String) → String → Option String
  | [], _ => none
  | (att, value) :: rest, key =>
    match att_value rest key with
    | some x => some x
    | none => if att = key then some value else none

/-- The opcode constants a sequence of `printf` calls defines: for each `#define` line of
`emit_opcodes`, the interface part and the message part of the constant's name and its
value. -/
def opcode_constants : List printf_call → List (String × String × Int)
  | [] => []
  | c :: rest =>
    match c with
    | ⟨"#define WL_%s_%s\t%d\n", [.s interface_part, .s message_part, .d value]⟩ =>
      (interface_part, message_part, value) :: opcode_constants rest
    | _ => opcode_constants rest

/-- The message names of the table rows a sequence of `printf` calls writes: one for each
row opening of `emit_messages`. -/
def table_row_names : List printf_call → List String
  | [] => []
  | c :: rest =>
    match c with
    | ⟨"\t\x7b \"%s\", \"", [.s name]⟩ => name :: table_row_names rest
    | _ => table_row_names rest

/-- What `start_element` establishes for every message it creates. -/
def message_built (m : message) : Prop :=
  m.uppercase_name = uppercase_dup m.name

/-- What `start_element` establishes for every interface it creates and keeps when it
appends messages and arguments. -/
def interface_built (i : interface) : Prop :=
  i.version ≠ 0 ∧ i.uppercase_name = uppercase_dup i.name
    ∧ (∀ m ∈ i.request_list, message_built m) ∧ (∀ m ∈ i.event_list, message_built m)

instance (m : message) : Decidable (message_built m) := by
  unfold message_built
  infer_instance

instance (i : interface) : Decidable (interface_built i) := by
  unfold interface_built
  infer_instance

/-! ## Example schemas -/

/-- The interface of the scenario of the specification: `wl_demo`, version 3, with the
request `destroy` and the event `done (serial : uint)`. -/
def demo_interface : interface :=
  { name := "wl_demo", uppercase_name := "WL_DEMO", version := 3,
    request_list := [{ name := "destroy", uppercase_name := "DESTROY", arg_list := [] }],
    event_list := [{ name := "done", uppercase_name := "DONE",
                     arg_list := [{ name := "serial", type := .UNSIGNED,
                                    object_name := none }] }] }

/-- The elements of the scenario of the specification, as expat reports them. -/
def demo_input : List (String × List (String × String)) :=
  [("protocol", []),
   ("interface", [("name", "wl_demo"), ("version", "3")]),
   ("request", [("name", "destroy")]),
   ("event", [("name", "done")]),
   ("arg", [("name", "serial"), ("type", "uint")])]

/-- A schema whose only interface has an event and no request. -/
def events_only_input : List (String × List (String × String)) :=
  [("interface", [("name", "wl_output"), ("version", "1")]),
   ("event", [("name", "geometry")])]

/-- The interface `start_element` builds from `events_only_input`. -/
def events_only_interface : interface :=
  { name := "wl_output", uppercase_name := "WL_OUTPUT", version := 1,
    request_list := [],
    event_list := [{ name := "geometry", uppercase_name := "GEOMETRY", arg_list := [] }] }

/-- The parse context `main` has after the elements of `demo_input`. -/
def demo_context : parse_context :=
  { protocol := { interface_list := [demo_interface] },
    interface := some 0,
    message := some { interface := 0, list := .event_list, index := 0 } }

/-- A parse context with the interface `wl_demo`, its request `destroy` and its event
`done`, before the `arg` element of `done`. -/
def demo_context_before_arg : parse_context :=
  { protocol := { interface_list :=
      [{ name := "wl_demo", uppercase_name := "WL_DEMO", version := 3,
         request_list := [{ name := "destroy", uppercase_name := "DESTROY", arg_list := [] }],
         event_list := [{ name := "done", uppercase_name := "DONE", arg_list := [] }] }] },
    interface := some 0,
    message := some { interface := 0, list := .event_list, index := 0 } }

/-- A schema whose interface element has an empty name and the version `-1`. -/
def negative_version_input : List (String × List (String × String)) :=
  [("interface", [("name", ""), ("version", "-1")])]

/-- The parse context `main` has after the elements of `negative_version_input`. -/
def negative_version_context : parse_context :=
  { protocol := { interface_list :=
      [{ name := "", uppercase_name := "", version := -1,
         request_list := [], event_list := [] }] },
    interface := some 0,
    message := none }

/-! ## Further notions of the specification -/

/-- What the cursors of the builder satisfy after every accepted element: the current
interface, when set, is an entry of the interface list; the current message, when set,
is an entry of a message list of the current interface or of an earlier one. -/
def cursors_valid (ctx : parse_context) : Prop :=
  (∀ p, ctx.interface = some p → p < ctx.protocol.interface_list.length)
  ∧ (∀ r, ctx.message = some r →
      ∃ p m, ctx.interface = some p ∧ r.interface ≤ p ∧ ctx.protocol.message_at r = some m)

/-- The current message, when set, is an entry of a message list of the current
interface. -/
def message_in_current_interface (ctx : parse_context) : Prop :=
  ∀ r, ctx.message = some r → ctx.interface = some r.interface

/-- The names of the `interface` elements of an input, in document order. -/
def document_interface_names (input : List (String × List (String × String))) :
    List String :=
  input.filterMap fun e => if e.1 = "interface" then att_value e.2 "name" else none

/-- The message `m1` is the message `m` with arguments appended at the tail. -/
def message_extends (m m1 : message) : Prop :=
  m1.name = m.name ∧ m1.uppercase_name = m.uppercase_name
    ∧ List.IsPrefix m.arg_list m1.arg_list

/-- The message list `l1` is the list `l` with entries appended at the tail and arguments
appended at the tail of the argument lists of its messages: every entry of `l` is at the
same index in `l1`. -/
def message_list_extends (l l1 : List message) : Prop :=
  ∀ (k : Nat) (m : message), l[k]? = some m → ∃ m1, l1[k]? = some m1 ∧ message_extends m m1

/-- The interface `i1` is the interface `i` with both message lists extended. -/
def interface_extends (i i1 : interface) : Prop :=
  i1.name = i.name ∧ i1.uppercase_name = i.uppercase_name ∧ i1.version = i.version
    ∧ message_list_extends i.request_list i1.request_list
    ∧ message_list_extends i.event_list i1.event_list

/-- The protocol `p1` is the protocol `p` with entries appended at the tail of its
lists: every interface of `p` is at the same index in `p1`, extended. -/
def protocol_extends (p p1 : protocol) : Prop :=
  ∀ (k : Nat) (i : interface), p.interface_list[k]? = some i →
    ∃ i1, p1.interface_list[k]? = some i1 ∧ interface_extends i i1

/-- The calls of a sequence of `printf` calls that use the format string `fmt`, in
order. -/
def calls_of (fmt : String) (out : List printf_call) : List printf_call :=
  out.filter fun c => c.fmt = fmt

/-- Whether the characters `pattern` stand at the start of `text`. -/
def starts_with : List Char → List Char → Bool
  | _, [] => true
  | [], _ :: _ => false
  | c :: text, d :: pattern => c = d && starts_with text pattern

/-- Whether the characters `pattern` stand somewhere in `text`, contiguously. -/
def contains_chars : List Char → List Char → Bool
  | [], pattern => starts_with [] pattern
  | c :: text, pattern => starts_with (c :: text) pattern || contains_chars text pattern

/-- Whether the output text `text` contains the text `pattern`. -/
def contains_text (text pattern : String) : Bool :=
  contains_chars text.data pattern.data

/-- Modelled from the spec: the macro `ARRAY_LENGTH` of `wayland-util.h`, which is not
among the sources; the descriptor's request and event counts are the numbers of rows of
the tables (section 4.4). -/
def ARRAY_LENGTH {α : Type} (table : List α) : Nat :=
  table.length

/-- The format strings of the `printf` calls of `emit_structs`. -/
def emit_structs_formats : List String :=
  ["struct wl_%s_%s \x7b\n", "\tvoid (*%s)(", "struct wl_client *client, struct wl_%s *%s",
   "void *data, struct wl_%s *%s", ", ", "int32_t ", "uint32_t ", "const char *",
   "struct wl_%s *", "struct wl_array *", "%s%s", ");\n", "\x7d;\n\n"]

/-- The format strings of the `printf` calls of `emit_opcodes`. -/
def emit_opcodes_formats : List String :=
  ["#define WL_%s_%s\t%d\n", "\n"]

/-- The format strings of the `printf` calls of `emit_messages`. -/
def emit_messages_formats : List String :=
  ["static const struct wl_message %s_%s[] = \x7b\n", "\t\x7b \"%s\", \"",
   "i", "n", "u", "s", "o", "a", "\" \x7d,\n", "\x7d;\n\n"]

/-- The parameter type `emit_structs` writes for an argument, as section 4.2 of the
specification tabulates it: `int32_t` for Int, `uint32_t` for NewId and Unsigned,
`const char *` for String, a pointer to the handle struct of the referenced interface
for Object, a pointer to the array struct for Array. -/
def spec_parameter_type (a : arg) : String :=
  match a.type with
  | .INT => "int32_t "
  | .NEW_ID => "uint32_t "
  | .UNSIGNED => "uint32_t "
  | .STRING => "const char *"
  | .OBJECT => "struct wl_" ++ a.object_name.getD "" ++ " *"
  | .ARRAY => "struct wl_array *"

/-- The parameters of the member of a dispatch struct for the message `m` of the
interface `i`: the transport context (the client for an `interface` struct, the user
data for a `listener` struct), the handle of the owning interface, then one parameter
per argument, in declaration order, named after the argument. -/
def spec_parameters (is_interface : Bool) (i : interface) (m : message) : List String :=
  (if is_interface then "struct wl_client *client" else "void *data")
    :: ("struct wl_" ++ i.name ++ " *" ++ i.name)
    :: m.arg_list.map fun a => spec_parameter_type a ++ a.name

/-- The parameters separated by `", "`, with no separator after the last one. -/
def spec_join : List String → String
  | [] => ""
  | [p] => p
  | p :: q :: rest => p ++ ", " ++ spec_join (q :: rest)

/-! ## Further example schemas -/

/-- The protocol of the scenario of the specification. -/
def demo_protocol : protocol :=
  { interface_list := [demo_interface] }

/-- A schema in which an `arg` element follows an `interface` element directly. -/
def stale_message_input : List (String × List (String × String)) :=
  [("interface", [("name", "first"), ("version", "1")]),
   ("request", [("name", "sync")]),
   ("interface", [("name", "second"), ("version", "1")]),
   ("arg", [("name", "key"), ("type", "uint")])]

/-- The parse context `main` has after the elements of `stale_message_input`. -/
def stale_message_context : parse_context :=
  { protocol := { interface_list :=
      [{ name := "first", uppercase_name := "FIRST", version := 1,
         request_list := [{ name := "sync", uppercase_name := "SYNC",
                            arg_list := [{ name := "key", type := .UNSIGNED,
                                           object_name := none }] }],
         event_list := [] },
       { name := "second", uppercase_name := "SECOND", version := 1,
         request_list := [], event_list := [] }] },
    interface := some 1,
    message := some { interface := 0, list := .request_list, index := 0 } }

/-! ## Tables and descriptor of a code block -/

/-- The message names of the rows a sequence of `printf` calls writes before the next
table closing `\x7d;`: the rest of a table whose opening has just been read. -/
def table_rows_from : List printf_call → List String
  | [] => []
  | c :: rest =>
    if c = printf "\x7d;\n\n" [] then []
    else if c.fmt = "\t\x7b \"%s\", \"" then
      match c.args with
      | [.s name] => name :: table_rows_from rest
      | _ => table_rows_from rest
    else table_rows_from rest

/-- The message names of the rows of the table that a sequence of `printf` calls declares
under the name `<interface_name>_<suffix>`, in order: the rows between the opening
`static const struct wl_message <interface_name>_<suffix>[] =` and the closing of that
table; no row when the sequence declares no such table. -/
def table_rows (interface_name suffix : String) : List printf_call → List String
  | [] => []
  | c :: rest =>
    if c = printf "static const struct wl_message %s_%s[] = \x7b\n"
        [.s interface_name, .s suffix] then
      table_rows_from rest
    else table_rows interface_name suffix rest

/-- The calls a sequence of `printf` calls makes before the next closing `\x7d;`: the
fields of a descriptor whose opening has just been read. -/
def descriptor_fields_from : List printf_call → List printf_call
  | [] => []
  | c :: rest => if c = printf "\x7d;\n\n" [] then [] else c :: descriptor_fields_from rest

/-- The fields of the interface descriptor that a sequence of `printf` calls defines: the
calls between the descriptor opening `WL_EXPORT const struct wl_interface ... =` with the
name and version, and the closing of the descriptor. -/
def descriptor_fields : List printf_call → List printf_call
  | [] => []
  | c :: rest =>
    if c.fmt = "WL_EXPORT const struct wl_interface wl_%s_interface = \x7b\n\t\"%s\", %d,\n" then
      descriptor_fields_from rest
    else descriptor_fields rest

/-! ## Standard output: lemmas -/

theorem stdout_text_nil : stdout_text [] = "" := rfl

theorem stdout_text_cons (c : printf_call) (out : List printf_call) :
    stdout_text (c :: out) = c.text ++ stdout_text out := by
  simp [stdout_text, String.ext_iff]

theorem stdout_text_append (out₁ out₂ : List printf_call) :
    stdout_text (out₁ ++ out₂) = stdout_text out₁ ++ stdout_text out₂ := by
  simp [stdout_text, String.ext_iff]

/-! ## Loops as maps -/

theorem emit_messages_loop_eq (l : List message) :
    emit_messages_loop l = l.flatMap emit_messages_message := by
  induction l with
  | nil => rfl
  | cons m rest ih => simp [emit_messages_loop, ih]

theorem emit_structs_loop_eq (is_interface : Bool) (i : interface) (l : List message) :
    emit_structs_loop is_interface i l = l.flatMap (emit_structs_message is_interface i) := by
  induction l with
  | nil => rfl
  | cons m rest ih => simp [emit_structs_loop, ih]

theorem emit_header_loop_eq (server : Int) (l : List interface) :
    emit_header_loop server l = l.flatMap (emit_header_interface server) := by
  induction l with
  | nil => rfl
  | cons m rest ih => simp [emit_header_loop, ih]

theorem emit_code_loop_eq (l : List interface) :
    emit_code_loop l = l.flatMap emit_code_interface := by
  induction l with
  | nil => rfl
  | cons m rest ih => simp [emit_code_loop, ih]

/-- A block written for one element of a list is a contiguous part of what is written
for the whole list. -/
theorem isInfix_flatMap_of_mem {α β : Type} (f : α → List β) {a : α} {l : List α}
    (h : a ∈ l) : List.IsInfix (f a) (l.flatMap f) := by
  obtain ⟨s, t, rfl⟩ := List.append_of_mem h
  exact ⟨s.flatMap f, t.flatMap f, by simp⟩

/-! ## C1: the signature string -/

theorem emit_messages_type_text (a : arg) :
    (emit_messages_type a).text = String.mk [spec_signature_char a.type] := by
  unfold emit_messages_type
  cases a.type <;> rfl

theorem emit_messages_args_text (l : List arg) :
    stdout_text (emit_messages_args l) =
      String.mk (l.map fun a => spec_signature_char a.type) := by
  induction l with
  | nil => rfl
  | cons a rest ih =>
    rw [emit_messages_args, stdout_text_cons, ih, emit_messages_type_text]
    rfl

theorem emit_messages_message_isInfix (message_list : List message) (interface : interface)
    (suffix : String) (m : message) (hm : m ∈ message_list) :
    List.IsInfix (emit_messages_message m) (emit_messages message_list interface suffix) := by
  have hne : message_list.isEmpty = false := by
    cases message_list with
    | nil => simp at hm
    | cons _ _ => rfl
  obtain ⟨s, t, h⟩ := isInfix_flatMap_of_mem emit_messages_message hm
  refine ⟨printf "static const struct wl_message %s_%s[] = \x7b\n"
    [.s interface.name, .s suffix] :: s, t ++ [printf "\x7d;\n\n" []], ?_⟩
  simp [emit_messages, hne, emit_messages_loop_eq, ← h]

/-- C1. For every message `m` of a message list given to `emit_messages`, the row written
for `m` is part of the output, its text is the row opening with the message name, then
the signature string (the text of the argument loop), then the row closing; the signature
string has as many characters as `m` has arguments, its `k`-th character is the
signature character of the kind of the `k`-th argument (`i` for Int, `n` for NewId, `u`
for Unsigned, `s` for String, `o` for Object, `a` for Array), and it is the empty string
when `m` has no arguments. -/
theorem emit_messages_signature (message_list : List message) (interface : interface)
    (suffix : String) (m : message) (hm : m ∈ message_list) :
    List.IsInfix (emit_messages_message m) (emit_messages message_list interface suffix)
    ∧ stdout_text (emit_messages_message m)
        = "\t\x7b \"" ++ m.name ++ "\", \""
            ++ stdout_text (emit_messages_args m.arg_list) ++ "\" \x7d,\n"
    ∧ (stdout_text (emit_messages_args m.arg_list)).length = m.arg_list.length
    ∧ (∀ k (h : k < m.arg_list.length),
        (stdout_text (emit_messages_args m.arg_list)).data[k]?
          = some (spec_signature_char (m.arg_list[k]).type))
    ∧ (m.arg_list = [] → stdout_text (emit_messages_args m.arg_list) = "") := by
  refine ⟨emit_messages_message_isInfix message_list interface suffix m hm, ?_, ?_, ?_, ?_⟩
  · simp only [emit_messages_message, stdout_text_append, stdout_text_cons, stdout_text_nil]
    simp [printf_call.text, format, String.ext_iff]
  · simp [emit_messages_args_text]
  · intro k h
    simp [emit_messages_args_text, h]
  · intro h
    rw [h]; rfl

/-- Witness of `emit_messages_signature`: the event `done (serial : uint)`. -/
theorem emit_messages_signature_witness :
    (⟨"done", "DONE", [⟨"serial", .UNSIGNED, none⟩]⟩ : message)
        ∈ [(⟨"done", "DONE", [⟨"serial", .UNSIGNED, none⟩]⟩ : message)]
    ∧ stdout_text (emit_messages_message ⟨"done", "DONE", [⟨"serial", .UNSIGNED, none⟩]⟩)
        = "\t\x7b \"" ++ "done" ++ "\", \""
            ++ stdout_text (emit_messages_args [⟨"serial", .UNSIGNED, none⟩]) ++ "\" \x7d,\n"
    ∧ (stdout_text (emit_messages_args [⟨"serial", .UNSIGNED, none⟩])).length = 1 :=
  ⟨by simp,
   (emit_messages_signature [⟨"done", "DONE", [⟨"serial", .UNSIGNED, none⟩]⟩]
      ⟨"wl_demo", "WL_DEMO", 3, [], [⟨"done", "DONE", [⟨"serial", .UNSIGNED, none⟩]⟩]⟩
      "events" ⟨"done", "DONE", [⟨"serial", .UNSIGNED, none⟩]⟩ (by simp)).2.1,
   (emit_messages_signature [⟨"done", "DONE", [⟨"serial", .UNSIGNED, none⟩]⟩]
      ⟨"wl_demo", "WL_DEMO", 3, [], [⟨"done", "DONE", [⟨"serial", .UNSIGNED, none⟩]⟩]⟩
      "events" ⟨"done", "DONE", [⟨"serial", .UNSIGNED, none⟩]⟩ (by simp)).2.2.1⟩

/-! ## C2: the opcode constants -/

theorem emit_opcodes_loop_length (i : interface) (l : List message) (opcode : Int) :
    (emit_opcodes_loop i l opcode).length = l.length := by
  induction l generalizing opcode with
  | nil => rfl
  | cons m rest ih => simp [emit_opcodes_loop, ih]

theorem emit_opcodes_loop_getElem? (i : interface) (l : List message) (opcode : Int)
    (k : Nat) :
    (emit_opcodes_loop i l opcode)[k]? =
      l[k]?.map fun m => printf "#define WL_%s_%s\t%d\n"
        [.s i.uppercase_name, .s m.uppercase_name, .d (opcode + k)] := by
  induction l generalizing opcode k with
  | nil => rfl
  | cons m rest ih =>
    cases k with
    | zero => simp [emit_opcodes_loop]
    | succ k =>
      simp only [emit_opcodes_loop, List.getElem?_cons_succ, ih]
      have : opcode + 1 + (k : Int) = opcode + ((k + 1 : Nat) : Int) := by push_cast; ring
      rw [this]

theorem opcode_constants_append (a b : List printf_call) :
    opcode_constants (a ++ b) = opcode_constants a ++ opcode_constants b := by
  induction a with
  | nil => rfl
  | cons c rest ih =>
    simp only [List.cons_append, opcode_constants]
    split <;> simp [ih]

theorem opcode_constants_emit_opcodes_loop_length (i : interface) (l : List message)
    (opcode : Int) :
    (opcode_constants (emit_opcodes_loop i l opcode)).length = l.length := by
  induction l generalizing opcode with
  | nil => rfl
  | cons m rest ih => simp [emit_opcodes_loop, opcode_constants, ih]

theorem opcode_constants_emit_opcodes_loop_getElem? (i : interface) (l : List message)
    (opcode : Int) (k : Nat) :
    (opcode_constants (emit_opcodes_loop i l opcode))[k]? =
      l[k]?.map fun m => (i.uppercase_name, m.uppercase_name, opcode + k) := by
  induction l generalizing opcode k with
  | nil => rfl
  | cons m rest ih =>
    cases k with
    | zero => simp [emit_opcodes_loop, opcode_constants]
    | succ k =>
      simp only [emit_opcodes_loop, opcode_constants, List.getElem?_cons_succ, ih]
      have : opcode + 1 + (k : Int) = opcode + ((k + 1 : Nat) : Int) := by push_cast; ring
      rw [this]

theorem opcode_constants_emit_opcodes (l : List message) (i : interface) :
    opcode_constants (emit_opcodes l i) = opcode_constants (emit_opcodes_loop i l 0) := by
  cases l with
  | nil => rfl
  | cons m rest =>
    simp [emit_opcodes, opcode_constants_append, opcode_constants]

theorem printf_define_text (a b : String) (k : Nat) :
    (printf "#define WL_%s_%s\t%d\n" [.s a, .s b, .d k]).text
      = "#define WL_" ++ a ++ "_" ++ b ++ "\t" ++ toString k ++ "\n" := by
  simp [printf_call.text, format, String.ext_iff]
  rfl

/-- C2. For every message list of length `n` and every interface, `emit_opcodes` writes
`n` `#define` lines followed, when `n > 0`, by one empty line, and nothing else (nothing at
all when `n = 0`); the opcode constants defined are exactly `n`; for every `k < n` the
`k`-th call is the `#define` of `WL_<interface uppercase name>_<uppercase name of the k-th
message>` with the value `k`, so the values are `0 .. n - 1` in declaration order. -/
theorem emit_opcodes_defines (message_list : List message) (interface : interface) :
    (emit_opcodes message_list interface).length
        = (if message_list = [] then 0 else message_list.length + 1)
    ∧ (opcode_constants (emit_opcodes message_list interface)).length = message_list.length
    ∧ (∀ k (h : k < message_list.length),
        (emit_opcodes message_list interface)[k]?
          = some (printf "#define WL_%s_%s\t%d\n"
              [.s interface.uppercase_name, .s (message_list[k]).uppercase_name, .d k])
        ∧ (printf "#define WL_%s_%s\t%d\n"
              [.s interface.uppercase_name, .s (message_list[k]).uppercase_name, .d k]).text
            = "#define WL_" ++ interface.uppercase_name ++ "_"
                ++ (message_list[k]).uppercase_name ++ "\t" ++ toString k ++ "\n"
        ∧ (opcode_constants (emit_opcodes message_list interface))[k]?
            = some (interface.uppercase_name, (message_list[k]).uppercase_name, (k : Int)))
    ∧ (message_list ≠ [] →
        (emit_opcodes message_list interface)[message_list.length]? = some (printf "\n" []))
    := by
  refine ⟨?_, ?_, ?_, ?_⟩
  · cases message_list with
    | nil => rfl
    | cons m rest => simp [emit_opcodes, emit_opcodes_loop_length]
  · rw [opcode_constants_emit_opcodes, opcode_constants_emit_opcodes_loop_length]
  · intro k h
    refine ⟨?_, printf_define_text _ _ k, ?_⟩
    · have hne : message_list.isEmpty = false := by
        cases message_list with
        | nil => simp at h
        | cons _ _ => rfl
      simp only [emit_opcodes, hne, Bool.false_eq_true, if_false]
      rw [List.getElem?_append_left (by simpa [emit_opcodes_loop_length] using h),
        emit_opcodes_loop_getElem?]
      simp [h]
    · rw [opcode_constants_emit_opcodes, opcode_constants_emit_opcodes_loop_getElem?]
      simp [h]
  · intro hne
    cases message_list with
    | nil => exact absurd rfl hne
    | cons m rest =>
      simp only [emit_opcodes, List.isEmpty_cons, Bool.false_eq_true, if_false]
      rw [List.getElem?_append_right (by simp [emit_opcodes_loop_length])]
      simp [emit_opcodes_loop_length]

/-! ## C3 and C4: the header blocks of an interface -/

theorem emit_header_interface_isInfix (protocol : protocol) (server : Int) (i : interface)
    (hi : i ∈ protocol.interface_list) :
    List.IsInfix (emit_header_interface server i) (emit_header protocol server) := by
  have h := isInfix_flatMap_of_mem (emit_header_interface server) hi
  rw [← emit_header_loop_eq] at h
  exact h.trans (List.infix_append _ _ _)

/-- C4 (the code departs from the claim). On the schema `events_only_input`, whose
interface `wl_output` has one event and no request, the server header holds the struct
block `struct wl_wl_output_interface` with no member, although the request list is
empty: `emit_structs` has no test of `wl_list_empty`, which `emit_opcodes` and
`emit_messages` both have (they write nothing for the empty request list). -/
theorem emit_structs_empty_request_list :
    parse initial_context events_only_input
      = .ok { protocol := { interface_list := [events_only_interface] },
              interface := some 0,
              message := some { interface := 0, list := .event_list, index := 0 } }
    ∧ main ["scanner", "server-header"] events_only_input
        = some { stdout := emit_header { interface_list := [events_only_interface] } 1,
                 stderr := [], status := 0 }
    ∧ events_only_interface.request_list = []
    ∧ emit_header_interface 1 events_only_interface
        = [printf "struct wl_%s_%s \x7b\n" [.s "wl_output", .s "interface"],
           printf "\x7d;\n\n" [],
           printf "#define WL_%s_%s\t%d\n" [.s "WL_OUTPUT", .s "GEOMETRY", .d 0],
           printf "\n" [],
           printf "extern const struct wl_interface wl_%s_interface;\n\n" [.s "wl_output"]]
    ∧ stdout_text (emit_structs .request_list events_only_interface)
        = "struct wl_wl_output_interface \x7b\n\x7d;\n\n"
    ∧ emit_opcodes events_only_interface.request_list events_only_interface = []
    ∧ emit_messages events_only_interface.request_list events_only_interface "requests" = [] := by
  refine ⟨rfl, rfl, rfl, by decide, by decide, rfl, rfl⟩

/-! ## C5: tables and descriptor fields of the code output -/

theorem emit_code_interface_isInfix (protocol : protocol) (i : interface)
    (hi : i ∈ protocol.interface_list) :
    List.IsInfix (emit_code_interface i) (emit_code protocol) := by
  have h := isInfix_flatMap_of_mem emit_code_interface hi
  rw [← emit_code_loop_eq] at h
  exact h.trans (List.suffix_append _ _).isInfix

theorem emit_messages_eq_nil_iff (l : List message) (i : interface) (suffix : String) :
    emit_messages l i suffix = [] ↔ l = [] := by
  cases l with
  | nil => simp [emit_messages]
  | cons m rest => simp [emit_messages]

theorem emit_messages_head_text (l : List message) (i : interface) (suffix : String)
    (h : l ≠ []) :
    (emit_messages l i suffix).head?.map printf_call.text
      = some ("static const struct wl_message " ++ (i.name ++ "_" ++ suffix) ++ "[] = \x7b\n") := by
  cases l with
  | nil => exact absurd rfl h
  | cons m rest =>
    simp [emit_messages, printf_call.text, format, String.ext_iff]

theorem emit_code_requests_text (i : interface) :
    ((emit_code_requests i).text
        = "\tARRAY_LENGTH(" ++ (i.name ++ "_" ++ "requests") ++ "), "
            ++ (i.name ++ "_" ++ "requests") ++ ",\n"
      ↔ i.request_list ≠ [])
    ∧ ((emit_code_requests i).text = "\t0, NULL,\n" ↔ i.request_list = []) := by
  cases h : i.request_list with
  | nil =>
    refine ⟨?_, ?_⟩
    · simp [emit_code_requests, h, printf_call.text, format, String.ext_iff]
    · simp [emit_code_requests, h]; rfl
  | cons m rest =>
    simp [emit_code_requests, h, printf_call.text, format, String.ext_iff]

theorem emit_code_events_text (i : interface) :
    ((emit_code_events i).text
        = "\tARRAY_LENGTH(" ++ (i.name ++ "_" ++ "events") ++ "), "
            ++ (i.name ++ "_" ++ "events") ++ ",\n"
      ↔ i.event_list ≠ [])
    ∧ ((emit_code_events i).text = "\t0, NULL,\n" ↔ i.event_list = []) := by
  cases h : i.event_list with
  | nil =>
    refine ⟨?_, ?_⟩
    · simp [emit_code_events, h, printf_call.text, format, String.ext_iff]
    · simp [emit_code_events, h]; rfl
  | cons m rest =>
    simp [emit_code_events, h, printf_call.text, format, String.ext_iff]

/-- C5. For every protocol and every interface `i` in it, what `emit_code` writes contains
the block of `i`: the requests table, the events table, the descriptor opening with the
name and version, the request fields, the event fields and the closing. The requests table
is written if and only if the request list is non-empty; when it is, the table is
declared under the name `<name>_requests`; the request fields of the descriptor are
`ARRAY_LENGTH(<name>_requests), <name>_requests`, with the same name, if and only if the
request list is non-empty (so exactly when the table was written), and they are
`0, NULL` if and only if the request list is empty (so exactly when no table was
written). The same holds for the events table, the name `<name>_events` and the event
fields. -/
theorem emit_code_tables (protocol : protocol) (i : interface)
    (hi : i ∈ protocol.interface_list) :
    List.IsInfix (emit_code_interface i) (emit_code protocol)
    ∧ emit_code_interface i
        = emit_messages i.request_list i "requests" ++ emit_messages i.event_list i "events"
          ++ [printf "WL_EXPORT const struct wl_interface wl_%s_interface = \x7b\n\t\"%s\", %d,\n"
                [.s i.name, .s i.name, .d i.version],
              emit_code_requests i, emit_code_events i, printf "\x7d;\n\n" []]
    ∧ (emit_messages i.request_list i "requests" ≠ [] ↔ i.request_list ≠ [])
    ∧ (i.request_list ≠ [] →
        (emit_messages i.request_list i "requests").head?.map printf_call.text
          = some ("static const struct wl_message " ++ (i.name ++ "_requests") ++ "[] = \x7b\n"))
    ∧ ((emit_code_requests i).text
          = "\tARRAY_LENGTH(" ++ (i.name ++ "_requests") ++ "), "
              ++ (i.name ++ "_requests") ++ ",\n"
        ↔ i.request_list ≠ [])
    ∧ ((emit_code_requests i).text = "\t0, NULL,\n" ↔ i.request_list = [])
    ∧ (emit_messages i.event_list i "events" ≠ [] ↔ i.event_list ≠ [])
    ∧ (i.event_list ≠ [] →
        (emit_messages i.event_list i "events").head?.map printf_call.text
          = some ("static const struct wl_message " ++ (i.name ++ "_events") ++ "[] = \x7b\n"))
    ∧ ((emit_code_events i).text
          = "\tARRAY_LENGTH(" ++ (i.name ++ "_events") ++ "), "
              ++ (i.name ++ "_events") ++ ",\n"
        ↔ i.event_list ≠ [])
    ∧ ((emit_code_events i).text = "\t0, NULL,\n" ↔ i.event_list = []) := by
  have hreq : i.name ++ "_" ++ "requests" = i.name ++ "_requests" := by
    simp [String.ext_iff]
  have hev : i.name ++ "_" ++ "events" = i.name ++ "_events" := by
    simp [String.ext_iff]
  refine ⟨emit_code_interface_isInfix protocol i hi, ?_, ?_, ?_, ?_,
    (emit_code_requests_text i).2, ?_, ?_, ?_, (emit_code_events_text i).2⟩
  · simp [emit_code_interface]
  · simp [emit_messages_eq_nil_iff]
  · intro h
    rw [← hreq]
    exact emit_messages_head_text _ _ _ h
  · rw [← hreq]
    exact (emit_code_requests_text i).1
  · simp [emit_messages_eq_nil_iff]
  · intro h
    rw [← hev]
    exact emit_messages_head_text _ _ _ h
  · rw [← hev]
    exact (emit_code_events_text i).1

/-- Witness of `emit_code_tables`: the scenario interface. -/
theorem emit_code_tables_witness :
    demo_interface ∈ (protocol.mk [demo_interface]).interface_list
    ∧ (emit_messages demo_interface.request_list demo_interface "requests" ≠ []
        ↔ demo_interface.request_list ≠ [])
    ∧ ((emit_code_requests demo_interface).text = "\t0, NULL,\n"
        ↔ demo_interface.request_list = []) :=
  ⟨by simp,
   (emit_code_tables ⟨[demo_interface]⟩ demo_interface (by simp)).2.2.1,
   (emit_code_tables ⟨[demo_interface]⟩ demo_interface (by simp)).2.2.2.2.2.1⟩

/-! ## The attribute loop and the parse loop -/

theorem scan_atts_name (atts : List (String × String)) (v : atts_vars) :
    (scan_atts atts v).name
      = match att_value atts "name" with
        | some x => some x
        | none => v.name := by
  induction atts generalizing v with
  | nil => rfl
  | cons a rest ih =>
    obtain ⟨att, value⟩ := a
    simp only [scan_atts, att_value, ih]
    cases att_value rest "name" with
    | some x => rfl
    | none =>
      by_cases h1 : att = "name"
      · subst h1; simp
      · by_cases h2 : att = "version" <;> by_cases h3 : att = "type" <;> simp [h1, h2, h3]

theorem scan_atts_type (atts : List (String × String)) (v : atts_vars) :
    (scan_atts atts v).type
      = match att_value atts "type" with
        | some x => some x
        | none => v.type := by
  induction atts generalizing v with
  | nil => rfl
  | cons a rest ih =>
    obtain ⟨att, value⟩ := a
    simp only [scan_atts, att_value, ih]
    cases att_value rest "type" with
    | some x => rfl
    | none =>
      by_cases h3 : att = "type"
      · subst h3; simp
      · by_cases h2 : att = "version" <;> by_cases h1 : att = "name" <;> simp [h1, h2, h3]

theorem scan_atts_version (atts : List (String × String)) (v : atts_vars) :
    (scan_atts atts v).version
      = match att_value atts "version" with
        | some x => atoi x
        | none => v.version := by
  induction atts generalizing v with
  | nil => rfl
  | cons a rest ih =>
    obtain ⟨att, value⟩ := a
    simp only [scan_atts, att_value, ih]
    cases att_value rest "version" with
    | some x => rfl
    | none =>
      by_cases h2 : att = "version"
      · subst h2; simp
      · by_cases h3 : att = "type" <;> by_cases h1 : att = "name" <;> simp [h1, h2, h3]

theorem att_value_eq_none_iff (atts : List (String × String)) (key : String) :
    att_value atts key = none ↔ ∀ value, (key, value) ∉ atts := by
  induction atts with
  | nil => simp [att_value]
  | cons a rest ih =>
    obtain ⟨att, value⟩ := a
    simp only [att_value]
    cases h : att_value rest key with
    | some x =>
      simp only [h, false_iff, reduceCtorEq] at ih ⊢
      intro hall
      exact ih fun v hv => hall v (List.mem_cons_of_mem _ hv)
    | none =>
      have ih' := ih.mp h
      by_cases hk : att = key
      · subst hk
        simp only [if_true, false_iff, reduceCtorEq]
        intro hall
        exact hall value (List.mem_cons_self _ _)
      · simp only [hk, if_false, true_iff]
        intro v hv
        rcases List.mem_cons.mp hv with h1 | h1
        · exact hk (by cases h1; rfl)
        · exact ih' v h1

theorem parse_append (ctx : parse_context) (a b : List (String × List (String × String))) :
    parse ctx (a ++ b)
      = match parse ctx a with
        | .ok ctx1 => parse ctx1 b
        | .error e => .error e := by
  induction a generalizing ctx with
  | nil => rfl
  | cons x rest ih =>
    obtain ⟨element_name, atts⟩ := x
    simp only [List.cons_append, parse]
    cases start_element ctx element_name atts with
    | error e => rfl
    | ok ctx1 => exact ih ctx1

/-! ## C7: the `interface` element -/

theorem scan_atts_init (atts : List (String × String)) :
    scan_atts atts { name := none, type := none, version := 0 }
      = { name := att_value atts "name", type := att_value atts "type",
          version := match att_value atts "version" with
            | some x => atoi x
            | none => 0 } := by
  have h1 := scan_atts_name atts { name := none, type := none, version := 0 }
  have h2 := scan_atts_type atts { name := none, type := none, version := 0 }
  have h3 := scan_atts_version atts { name := none, type := none, version := 0 }
  generalize scan_atts atts { name := none, type := none, version := 0 } = v at h1 h2 h3
  obtain ⟨n, t, ver⟩ := v
  simp only at h1 h2 h3
  subst h3
  congr 1
  · rw [h1]; cases att_value atts "name" <;> rfl
  · rw [h2]; cases att_value atts "type" <;> rfl

/-- C7, as the code has it. For every builder state and every attribute list, handling an
`interface` element fails with "no interface name given" when no `name` attribute is
present. When a `name` attribute is present, it fails with "no interface version given"
when the `version` attribute is absent or its value converts (`atoi`) to zero, and
otherwise succeeds: it appends one new interface with that name, its uppercase form, the
converted version and empty request and event lists at the tail of the interface list,
makes it the current interface (the cursor is the index of the new entry) and leaves the
current message as it was. In particular, for a schema whose elements are accepted up to
an `interface` element that has a name and no version, `main` (with one argument) ends
with the diagnostic "no interface version given", nothing on standard output and the
status `EXIT_FAILURE`. -/
theorem start_element_interface (ctx : parse_context) (atts : List (String × String)) :
    (att_value atts "name" = none →
      start_element ctx "interface" atts
        = .error (.exit "no interface name given\n" EXIT_FAILURE))
    ∧ (∀ name, att_value atts "name" = some name →
        (att_value atts "version" = none →
          start_element ctx "interface" atts
            = .error (.exit "no interface version given\n" EXIT_FAILURE))
        ∧ (∀ value, att_value atts "version" = some value →
            (atoi value = 0 →
              start_element ctx "interface" atts
                = .error (.exit "no interface version given\n" EXIT_FAILURE))
            ∧ (atoi value ≠ 0 →
              start_element ctx "interface" atts
                = .ok { protocol := { interface_list := ctx.protocol.interface_list ++
                          [{ name := name, uppercase_name := uppercase_dup name,
                             version := atoi value, request_list := [], event_list := [] }] },
                        interface := some ctx.protocol.interface_list.length,
                        message := ctx.message }
              ∧ (ctx.protocol.interface_list ++
                  [{ name := name, uppercase_name := uppercase_dup name,
                     version := atoi value, request_list := [], event_list := [] }]
                    )[ctx.protocol.interface_list.length]?
                  = some { name := name, uppercase_name := uppercase_dup name,
                           version := atoi value, request_list := [], event_list := [] })))
    ∧ (∀ name argv before after ctx1, argv.length = 2 →
        parse initial_context before = .ok ctx1 →
        att_value atts "name" = some name → att_value atts "version" = none →
        main argv (before ++ ("interface", atts) :: after)
          = some { stdout := [], stderr := ["no interface version given\n"],
                   status := EXIT_FAILURE }) := by
  refine ⟨?_, ?_, ?_⟩
  · intro h
    simp [start_element, scan_atts_init, h]
  · intro name hname
    refine ⟨?_, ?_⟩
    · intro hv
      simp [start_element, scan_atts_init, hname, hv]
    · intro value hv
      refine ⟨?_, ?_⟩
      · intro h0
        simp [start_element, scan_atts_init, hname, hv, h0]
      · intro h0
        simp [start_element, scan_atts_init, hname, hv, h0]
  · intro name argv before after ctx1 hargv hparse hname hv
    have hstep : start_element ctx1 "interface" atts
        = .error (.exit "no interface version given\n" EXIT_FAILURE) := by
      simp [start_element, scan_atts_init, hname, hv]
    simp [main, hargv, parse_append, hparse, parse, hstep, failure.result]

/-- Witness of `start_element_interface`: an `interface` element with a name and no
version. -/
theorem start_element_interface_witness :
    att_value [("name", "wl_demo")] "name" = some "wl_demo"
    ∧ att_value [("name", "wl_demo")] "version" = none
    ∧ start_element initial_context "interface" [("name", "wl_demo")]
        = .error (.exit "no interface version given\n" EXIT_FAILURE) :=
  ⟨rfl, rfl,
   ((start_element_interface initial_context [("name", "wl_demo")]).2.1 "wl_demo" rfl).1 rfl⟩

/-- C7 fails as stated: an `interface` element with neither name nor version has no
`version` attribute, yet handling it fails with "no interface name given", not with
"no interface version given"; the diagnostic of the run does not mention the version. -/
theorem start_element_interface_name_checked_first :
    att_value [] "version" = none
    ∧ start_element initial_context "interface" []
        = .error (.exit "no interface name given\n" EXIT_FAILURE)
    ∧ start_element initial_context "interface" []
        ≠ .error (.exit "no interface version given\n" EXIT_FAILURE)
    ∧ main ["scanner", "code"] [("interface", [])]
        = some { stdout := [], stderr := ["no interface name given\n"],
                 status := EXIT_FAILURE } := by
  refine ⟨rfl, rfl, ?_, rfl⟩
  intro h
  have h2 : start_element initial_context "interface" []
      = .error (.exit "no interface name given\n" EXIT_FAILURE) := rfl
  rw [h2] at h
  injection h with h
  injection h with h _
  exact absurd h (by decide)

/-! ## C10: the `request` and `event` elements -/

theorem message_list_set_message_list (i : interface) (r : message_list_ref)
    (l : List message) : (i.set_message_list r l).message_list r = l := by
  cases r <;> rfl

/-- C10. For every builder state with a current interface `i` (the cursor `p` points into
the interface list) and every attribute list, handling a `request` or `event` element
fails with "no request name given" when no `name` attribute is present; otherwise it
succeeds: it creates a message with that name, the uppercase form of the name and an
empty argument list, appends it at the tail of the request list of the current interface
when the tag is `request` and of its event list when the tag is `event`, leaves the other
list, the name, uppercase name and version of the interface, every other interface and
the current interface unchanged, and makes the new message the current message. -/
theorem start_element_message (ctx : parse_context) (element_name : String)
    (atts : List (String × String)) (p : Nat) (i : interface)
    (htag : element_name = "request" ∨ element_name = "event")
    (hcur : ctx.interface = some p) (hi : ctx.protocol.interface_list[p]? = some i) :
    (att_value atts "name" = none →
      start_element ctx element_name atts
        = .error (.exit "no request name given\n" EXIT_FAILURE))
    ∧ (∀ name, att_value atts "name" = some name →
        ∃ ctx1 i1 r,
          start_element ctx element_name atts = .ok ctx1
          ∧ ctx1.interface = ctx.interface
          ∧ ctx1.protocol.interface_list.length = ctx.protocol.interface_list.length
          ∧ (∀ q, q ≠ p → ctx1.protocol.interface_list[q]? = ctx.protocol.interface_list[q]?)
          ∧ ctx1.protocol.interface_list[p]? = some i1
          ∧ i1.name = i.name ∧ i1.uppercase_name = i.uppercase_name ∧ i1.version = i.version
          ∧ (element_name = "request" →
              i1.request_list = i.request_list ++
                [{ name := name, uppercase_name := uppercase_dup name, arg_list := [] }]
              ∧ i1.event_list = i.event_list)
          ∧ (element_name = "event" →
              i1.event_list = i.event_list ++
                [{ name := name, uppercase_name := uppercase_dup name, arg_list := [] }]
              ∧ i1.request_list = i.request_list)
          ∧ ctx1.message = some r
          ∧ ctx1.protocol.message_at r
              = some { name := name, uppercase_name := uppercase_dup name, arg_list := [] })
    := by
  have hp : p < ctx.protocol.interface_list.length := by
    rcases List.getElem?_eq_some_iff.mp hi with ⟨h, _⟩
    exact h
  have hne : element_name ≠ "interface" := by
    rcases htag with h | h <;> rw [h] <;> decide
  refine ⟨?_, ?_⟩
  · intro h
    simp [start_element, scan_atts_init, h, hne, htag]
  · intro name hname
    rcases htag with h | h
    · subst h
      let m : message := { name := name, uppercase_name := uppercase_dup name, arg_list := [] }
      let i1 : interface := { i with request_list := i.request_list ++ [m] }
      have hstep : start_element ctx "request" atts
          = .ok { protocol := { interface_list := ctx.protocol.interface_list.set p i1 },
                  interface := ctx.interface,
                  message := some { interface := p, list := .request_list,
                                    index := i.request_list.length } } := by
        simp [start_element, scan_atts_init, hname, hcur, hi, i1, m]
      refine ⟨_, i1, _, hstep, rfl, by simp, ?_, by simp [hp], rfl, rfl, rfl, ?_, ?_, rfl, ?_⟩
      · intro q hq
        simp [List.getElem?_set_ne (Ne.symm hq)]
      · intro _
        exact ⟨rfl, rfl⟩
      · intro h
        exact absurd h (by decide)
      · simp [protocol.message_at, interface.message_list, hp]
    · subst h
      let m : message := { name := name, uppercase_name := uppercase_dup name, arg_list := [] }
      let i1 : interface := { i with event_list := i.event_list ++ [m] }
      have hstep : start_element ctx "event" atts
          = .ok { protocol := { interface_list := ctx.protocol.interface_list.set p i1 },
                  interface := ctx.interface,
                  message := some { interface := p, list := .event_list,
                                    index := i.event_list.length } } := by
        simp [start_element, scan_atts_init, hname, hcur, hi, i1, m]
      refine ⟨_, i1, _, hstep, rfl, by simp, ?_, by simp [hp], rfl, rfl, rfl, ?_, ?_, rfl, ?_⟩
      · intro q hq
        simp [List.getElem?_set_ne (Ne.symm hq)]
      · intro h
        exact absurd h (by decide)
      · intro _
        exact ⟨rfl, rfl⟩
      · simp [protocol.message_at, interface.message_list, hp]

/-- Witness of `start_element_message`: a `request` element in the interface `wl_demo`. -/
theorem start_element_message_witness :
    (("request" : String) = "request" ∨ ("request" : String) = "event")
    ∧ demo_context.interface = some 0
    ∧ demo_context.protocol.interface_list[0]? = some demo_interface
    ∧ att_value [("name", "sync")] "name" = some "sync"
    ∧ ∃ ctx1 i1 r,
        start_element demo_context "request" [("name", "sync")] = .ok ctx1
        ∧ ctx1.interface = demo_context.interface
        ∧ ctx1.protocol.interface_list.length = demo_context.protocol.interface_list.length
        ∧ (∀ q, q ≠ 0 →
            ctx1.protocol.interface_list[q]? = demo_context.protocol.interface_list[q]?)
        ∧ ctx1.protocol.interface_list[0]? = some i1
        ∧ i1.name = demo_interface.name
        ∧ i1.uppercase_name = demo_interface.uppercase_name
        ∧ i1.version = demo_interface.version
        ∧ (("request" : String) = "request" →
            i1.request_list = demo_interface.request_list ++
              [{ name := "sync", uppercase_name := uppercase_dup "sync", arg_list := [] }]
            ∧ i1.event_list = demo_interface.event_list)
        ∧ (("request" : String) = "event" →
            i1.event_list = demo_interface.event_list ++
              [{ name := "sync", uppercase_name := uppercase_dup "sync", arg_list := [] }]
            ∧ i1.request_list = demo_interface.request_list)
        ∧ ctx1.message = some r
        ∧ ctx1.protocol.message_at r
            = some { name := "sync", uppercase_name := uppercase_dup "sync",
                     arg_list := [] } :=
  ⟨Or.inl rfl, rfl, rfl, rfl,
   (start_element_message demo_context "request" [("name", "sync")] 0 demo_interface
      (Or.inl rfl) rfl rfl).2 "sync" rfl⟩

/-! ## C9: the `arg` element -/

theorem arg_of_type_spec (name t : String) :
    (arg_of_type name t).name = name
    ∧ ((arg_of_type name t).type = .NEW_ID ↔ t = "new_id")
    ∧ ((arg_of_type name t).type = .INT ↔ t = "int")
    ∧ ((arg_of_type name t).type = .UNSIGNED ↔ t = "uint")
    ∧ ((arg_of_type name t).type = .STRING ↔ t = "string")
    ∧ ((arg_of_type name t).type = .ARRAY ↔ t = "array")
    ∧ (t ≠ "new_id" → t ≠ "int" → t ≠ "uint" → t ≠ "string" → t ≠ "array" →
        (arg_of_type name t).type = .OBJECT ∧ (arg_of_type name t).object_name = some t) := by
  unfold arg_of_type
  by_cases h1 : t = "new_id"
  · subst h1; simp
  by_cases h2 : t = "int"
  · subst h2; simp
  by_cases h3 : t = "uint"
  · subst h3; simp
  by_cases h4 : t = "string"
  · subst h4; simp
  by_cases h5 : t = "array"
  · subst h5; simp
  simp [h1, h2, h3, h4, h5]

/-- C9. For every builder state whose current message is `m` and every `arg` element with a
`name` attribute and a `type` attribute `t`, handling the element succeeds, leaves both
cursors as they were and appends one argument with that name at the tail of the argument
list of `m`; the kind of the argument is NewId iff `t = "new_id"`, Int iff `t = "int"`,
Unsigned iff `t = "uint"`, String iff `t = "string"`, Array iff `t = "array"`, and for
every other `t` it is Object with `t` itself, unchanged, as the name of the referenced
interface. -/
theorem start_element_arg (ctx : parse_context) (atts : List (String × String))
    (name t : String) (r : message_ref) (m : message)
    (hname : att_value atts "name" = some name) (htype : att_value atts "type" = some t)
    (hcur : ctx.message = some r) (hm : ctx.protocol.message_at r = some m) :
    (∃ ctx1, start_element ctx "arg" atts = .ok ctx1
      ∧ ctx1.interface = ctx.interface ∧ ctx1.message = ctx.message
      ∧ ctx1.protocol.message_at r
          = some { m with arg_list := m.arg_list ++ [arg_of_type name t] })
    ∧ (arg_of_type name t).name = name
    ∧ ((arg_of_type name t).type = .NEW_ID ↔ t = "new_id")
    ∧ ((arg_of_type name t).type = .INT ↔ t = "int")
    ∧ ((arg_of_type name t).type = .UNSIGNED ↔ t = "uint")
    ∧ ((arg_of_type name t).type = .STRING ↔ t = "string")
    ∧ ((arg_of_type name t).type = .ARRAY ↔ t = "array")
    ∧ (t ≠ "new_id" → t ≠ "int" → t ≠ "uint" → t ≠ "string" → t ≠ "array" →
        (arg_of_type name t).type = .OBJECT ∧ (arg_of_type name t).object_name = some t) := by
  refine ⟨?_, arg_of_type_spec name t⟩
  unfold protocol.message_at at hm
  cases hi : ctx.protocol.interface_list[r.interface]? with
  | none => simp [hi] at hm
  | some i =>
    simp only [hi] at hm
    have hp : r.interface < ctx.protocol.interface_list.length :=
      (List.getElem?_eq_some_iff.mp hi).1
    have hq : r.index < (i.message_list r.list).length :=
      (List.getElem?_eq_some_iff.mp hm).1
    let m1 : message := { m with arg_list := m.arg_list ++ [arg_of_type name t] }
    let i1 := i.set_message_list r.list ((i.message_list r.list).set r.index m1)
    have hstep : start_element ctx "arg" atts
        = .ok { protocol := { interface_list := ctx.protocol.interface_list.set r.interface i1 },
                interface := ctx.interface, message := ctx.message } := by
      have e1 : ("arg" : String) ≠ "interface" := by decide
      have e2 : ("arg" : String) ≠ "request" := by decide
      have e3 : ("arg" : String) ≠ "event" := by decide
      simp [start_element, scan_atts_init, hname, htype, hcur, hi, hm, e1, e2, e3, i1, m1]
    refine ⟨_, hstep, rfl, rfl, ?_⟩
    simp [protocol.message_at, hp, i1, message_list_set_message_list, hq, m1]

/-- Witness of `start_element_arg`: the argument `serial` of type `uint` of the event
`done`. -/
theorem start_element_arg_witness :
    att_value [("name", "serial"), ("type", "uint")] "name" = some "serial"
    ∧ att_value [("name", "serial"), ("type", "uint")] "type" = some "uint"
    ∧ demo_context_before_arg.message
        = some { interface := 0, list := .event_list, index := 0 }
    ∧ demo_context_before_arg.protocol.message_at
          { interface := 0, list := .event_list, index := 0 }
        = some { name := "done", uppercase_name := "DONE", arg_list := [] }
    ∧ ∃ ctx1,
        start_element demo_context_before_arg "arg" [("name", "serial"), ("type", "uint")]
          = .ok ctx1
        ∧ ctx1.interface = demo_context_before_arg.interface
        ∧ ctx1.message = demo_context_before_arg.message
        ∧ ctx1.protocol.message_at { interface := 0, list := .event_list, index := 0 }
            = some { name := "done", uppercase_name := "DONE",
                     arg_list := [] ++ [arg_of_type "serial" "uint"] } :=
  ⟨rfl, rfl, rfl, rfl,
   (start_element_arg demo_context_before_arg [("name", "serial"), ("type", "uint")]
      "serial" "uint" { interface := 0, list := .event_list, index := 0 }
      { name := "done", uppercase_name := "DONE", arg_list := [] } rfl rfl rfl rfl).1⟩

/-! ## What the builder keeps true -/

theorem interface_built_set_message_list (i : interface) (r : message_list_ref)
    (k : Nat) (m m1 : message) (hi : interface_built i)
    (hm : (i.message_list r)[k]? = some m) (hname : m1.name = m.name)
    (hupper : m1.uppercase_name = m.uppercase_name) :
    interface_built (i.set_message_list r ((i.message_list r).set k m1)) := by
  obtain ⟨hv, hu, hreq, hev⟩ := hi
  have hmem : m ∈ i.message_list r := List.getElem?_mem hm
  cases r with
  | request_list =>
    refine ⟨hv, hu, ?_, hev⟩
    intro x hx
    rcases List.mem_or_eq_of_mem_set hx with h | h
    · exact hreq x h
    · subst h
      have := hreq m hmem
      unfold message_built at this ⊢
      rw [hname, hupper, this]
  | event_list =>
    refine ⟨hv, hu, hreq, ?_⟩
    intro x hx
    rcases List.mem_or_eq_of_mem_set hx with h | h
    · exact hev x h
    · subst h
      have := hev m hmem
      unfold message_built at this ⊢
      rw [hname, hupper, this]

theorem start_element_built (ctx ctx1 : parse_context) (element_name : String)
    (atts : List (String × String))
    (h : ∀ i ∈ ctx.protocol.interface_list, interface_built i)
    (hs : start_element ctx element_name atts = .ok ctx1) :
    ∀ i ∈ ctx1.protocol.interface_list, interface_built i := by
  unfold start_element at hs
  simp only [scan_atts_init] at hs
  split at hs
  · -- interface
    split at hs
    · exact absurd hs (by simp)
    · split at hs
      · exact absurd hs (by simp)
      · rename_i hver
        cases hs
        intro i hi
        rcases List.mem_append.mp hi with hi | hi
        · exact h i hi
        · rw [List.mem_singleton.mp hi]
          exact ⟨hver, rfl, by simp, by simp⟩
  · split at hs
    · -- request or event
      split at hs
      · exact absurd hs (by simp)
      · split at hs
        · exact absurd hs (by simp)
        · split at hs
          · exact absurd hs (by simp)
          · rename_i name _ p _ i0 hi0
            have hb := h i0 (List.getElem?_mem hi0)
            obtain ⟨hv, hu, hreq, hev⟩ := hb
            split at hs
            · cases hs
              intro i hi
              rcases List.mem_or_eq_of_mem_set hi with hi | hi
              · exact h i hi
              · subst hi
                refine ⟨hv, hu, ?_, hev⟩
                intro x hx
                rcases List.mem_append.mp hx with hx | hx
                · exact hreq x hx
                · rw [List.mem_singleton.mp hx]; rfl
            · cases hs
              intro i hi
              rcases List.mem_or_eq_of_mem_set hi with hi | hi
              · exact h i hi
              · subst hi
                refine ⟨hv, hu, hreq, ?_⟩
                intro x hx
                rcases List.mem_append.mp hx with hx | hx
                · exact hev x hx
                · rw [List.mem_singleton.mp hx]; rfl
    · split at hs
      · -- arg
        split at hs
        · exact absurd hs (by simp)
        · split at hs
          · exact absurd hs (by simp)
          · split at hs
            · exact absurd hs (by simp)
            · split at hs
              · exact absurd hs (by simp)
              · split at hs
                · exact absurd hs (by simp)
                · rename_i r _ _ i0 hi0 _ m0 hm0
                  cases hs
                  intro i hi
                  rcases List.mem_or_eq_of_mem_set hi with hi | hi
                  · exact h i hi
                  · subst hi
                    exact interface_built_set_message_list i0 r.list r.index m0 _
                      (h i0 (List.getElem?_mem hi0)) hm0 rfl rfl
      · cases hs
        exact h

theorem parse_built (input : List (String × List (String × String)))
    (ctx ctx1 : parse_context)
    (h : ∀ i ∈ ctx.protocol.interface_list, interface_built i)
    (hs : parse ctx input = .ok ctx1) :
    ∀ i ∈ ctx1.protocol.interface_list, interface_built i := by
  induction input generalizing ctx with
  | nil =>
    cases hs
    exact h
  | cons x rest ih =>
    obtain ⟨element_name, atts⟩ := x
    simp only [parse] at hs
    cases hstep : start_element ctx element_name atts with
    | error e => simp [hstep] at hs
    | ok ctx2 =>
      simp only [hstep] at hs
      exact ih ctx2 (start_element_built ctx ctx2 element_name atts h hstep) hs

theorem parse_initial_built (input : List (String × List (String × String)))
    (ctx : parse_context) (hs : parse initial_context input = .ok ctx) :
    ∀ i ∈ ctx.protocol.interface_list, interface_built i :=
  parse_built input initial_context ctx (by simp [initial_context]) hs

/-! ## Opcode constants and table rows of the emitters -/

theorem opcode_constants_emit_structs_args (l : List arg) :
    opcode_constants (emit_structs_args l) = [] := by
  induction l with
  | nil => rfl
  | cons a rest ih =>
    simp only [emit_structs_args, emit_structs_type]
    cases a.type <;> simp [opcode_constants, ih]

theorem opcode_constants_emit_structs_loop (b : Bool) (i : interface) (l : List message) :
    opcode_constants (emit_structs_loop b i l) = [] := by
  induction l with
  | nil => rfl
  | cons m rest ih =>
    simp only [emit_structs_loop, emit_structs_message, opcode_constants_append, ih,
      opcode_constants_emit_structs_args]
    cases b <;> cases m.arg_list <;> simp [opcode_constants]

theorem opcode_constants_emit_structs (r : message_list_ref) (i : interface) :
    opcode_constants (emit_structs r i) = [] := by
  simp [emit_structs, opcode_constants_append, opcode_constants_emit_structs_loop,
    opcode_constants]

theorem opcode_constants_emit_header_interface (server : Int) (i : interface) :
    opcode_constants (emit_header_interface server i)
      = opcode_constants (emit_opcodes (if server ≠ 0 then i.event_list else i.request_list) i)
    := by
  have hx : opcode_constants
      [printf "extern const struct wl_interface wl_%s_interface;\n\n" [.s i.name]] = [] := by
    simp [opcode_constants]
  by_cases h : server = 0
  · simp only [emit_header_interface, h, ne_eq, not_true_eq_false, if_false,
      opcode_constants_append, opcode_constants_emit_structs, hx, List.nil_append,
      List.append_nil]
  · simp only [emit_header_interface, h, ne_eq, not_false_eq_true, if_true,
      opcode_constants_append, opcode_constants_emit_structs, hx, List.nil_append,
      List.append_nil]

theorem table_row_names_append (a b : List printf_call) :
    table_row_names (a ++ b) = table_row_names a ++ table_row_names b := by
  induction a with
  | nil => rfl
  | cons c rest ih =>
    simp only [List.cons_append, table_row_names]
    split <;> simp [ih]

theorem table_row_names_emit_messages_args (l : List arg) :
    table_row_names (emit_messages_args l) = [] := by
  induction l with
  | nil => rfl
  | cons a rest ih =>
    simp only [emit_messages_args, emit_messages_type]
    cases a.type <;> simp [table_row_names, ih]

theorem table_row_names_emit_messages_loop (l : List message) :
    table_row_names (emit_messages_loop l) = l.map fun m => m.name := by
  induction l with
  | nil => rfl
  | cons m rest ih =>
    simp [emit_messages_loop, emit_messages_message, table_row_names_append, ih,
      table_row_names_emit_messages_args, table_row_names]

theorem table_row_names_emit_messages (l : List message) (i : interface) (suffix : String) :
    table_row_names (emit_messages l i suffix) = l.map fun m => m.name := by
  cases l with
  | nil => rfl
  | cons m rest =>
    simp [emit_messages, table_row_names_append, table_row_names_emit_messages_loop,
      table_row_names_emit_messages_args, emit_messages_loop, emit_messages_message,
      table_row_names]

/-! ## C8: protocols built by the scanner -/

theorem emit_code_requests_eq_null_iff (i : interface) :
    emit_code_requests i = printf "\t0, NULL,\n" [] ↔ i.request_list = [] := by
  cases h : i.request_list with
  | nil => simp [emit_code_requests, h]
  | cons m rest => simp [emit_code_requests, h]

theorem emit_code_events_eq_null_iff (i : interface) :
    emit_code_events i = printf "\t0, NULL,\n" [] ↔ i.event_list = [] := by
  cases h : i.event_list with
  | nil => simp [emit_code_events, h]
  | cons m rest => simp [emit_code_events, h]

theorem rows_match_opcodes (l : List message) (i : interface) (suffix : String)
    (hu : i.uppercase_name = uppercase_dup i.name) (hl : ∀ m ∈ l, message_built m)
    (k : Nat) :
    (opcode_constants (emit_opcodes l i))[k]?
      = (table_row_names (emit_messages l i suffix))[k]?.map
          fun name => (uppercase_dup i.name, uppercase_dup name, (k : Int)) := by
  rw [opcode_constants_emit_opcodes, opcode_constants_emit_opcodes_loop_getElem?,
    table_row_names_emit_messages, List.getElem?_map]
  cases h : l[k]? with
  | none => rfl
  | some m =>
    have hm : m.uppercase_name = uppercase_dup m.name := hl m (List.getElem?_mem h)
    simp [hu, hm]

theorem opcode_constants_ne_nil_iff (l : List message) (i : interface) :
    opcode_constants (emit_opcodes l i) ≠ [] ↔ l ≠ [] := by
  rw [opcode_constants_emit_opcodes]
  have := opcode_constants_emit_opcodes_loop_length i l 0
  cases l with
  | nil => simp at this; simp [this]
  | cons m rest =>
    simp only [ne_eq, reduceCtorEq, not_false_eq_true, iff_true]
    intro h
    rw [h] at this
    simp at this

/-- C8, as the code has it. For every input the builder accepts, every interface of the
resulting protocol has a version different from zero. (The version may be negative and the
name may be empty.) -/
theorem parse_interface_version (input : List (String × List (String × String)))
    (ctx : parse_context) (hparse : parse initial_context input = .ok ctx) :
    ∀ i ∈ ctx.protocol.interface_list, i.version ≠ 0 :=
  fun i hi => (parse_initial_built input ctx hparse i hi).1

/-- Witness of `parse_interface_version`: the scenario of the specification. -/
theorem parse_interface_version_witness :
    parse initial_context demo_input = .ok demo_context
    ∧ demo_interface.version ≠ 0 :=
  ⟨rfl, parse_interface_version demo_input demo_context rfl demo_interface
    (by simp [demo_context])⟩

/-- C8 fails as stated: the builder accepts the element
`interface name="" version="-1"` and the resulting interface has the version `-1` and the
empty name. -/
theorem parse_accepts_negative_version_empty_name :
    parse initial_context negative_version_input = .ok negative_version_context
    ∧ ¬ (∀ i ∈ negative_version_context.protocol.interface_list,
          0 < i.version ∧ i.name ≠ "") := by
  refine ⟨rfl, ?_⟩
  intro h
  have := h _ (List.mem_singleton.mpr rfl)
  exact absurd this.1 (by decide)

/-! ## The accepted runs of `start_element` -/

/-- The successful runs of `start_element`, by branch. -/
theorem start_element_ok (ctx ctx1 : parse_context) (element_name : String)
    (atts : List (String × String))
    (hs : start_element ctx element_name atts = .ok ctx1) :
    (element_name = "interface" ∧ ∃ new : interface,
        att_value atts "name" = some new.name ∧ new.version ≠ 0
        ∧ new.request_list = [] ∧ new.event_list = []
        ∧ ctx1.protocol.interface_list = ctx.protocol.interface_list ++ [new]
        ∧ ctx1.interface = some ctx.protocol.interface_list.length
        ∧ ctx1.message = ctx.message)
    ∨ ((element_name = "request" ∨ element_name = "event") ∧ ∃ p i m list,
        list = (if element_name = "request" then message_list_ref.request_list
                else message_list_ref.event_list)
        ∧ att_value atts "name" = some m.name ∧ m.arg_list = []
        ∧ ctx.interface = some p ∧ ctx.protocol.interface_list[p]? = some i
        ∧ ctx1.protocol.interface_list
            = ctx.protocol.interface_list.set p
                (i.set_message_list list (i.message_list list ++ [m]))
        ∧ ctx1.interface = some p
        ∧ ctx1.message
            = some { interface := p, list := list, index := (i.message_list list).length })
    ∨ (element_name = "arg" ∧ ∃ r i m a,
        att_value atts "name" = some a.name
        ∧ ctx.message = some r ∧ ctx.protocol.interface_list[r.interface]? = some i
        ∧ (i.message_list r.list)[r.index]? = some m
        ∧ ctx1.protocol.interface_list
            = ctx.protocol.interface_list.set r.interface
                (i.set_message_list r.list ((i.message_list r.list).set r.index
                  { name := m.name, uppercase_name := m.uppercase_name,
                    arg_list := m.arg_list ++ [a] }))
        ∧ ctx1.interface = ctx.interface
        ∧ ctx1.message = ctx.message)
    ∨ (element_name ≠ "interface" ∧ element_name ≠ "request" ∧ element_name ≠ "event"
        ∧ element_name ≠ "arg" ∧ ctx1 = ctx) := by
  unfold start_element at hs
  simp only [scan_atts_init] at hs
  by_cases h1 : element_name = "interface"
  · left
    simp only [h1, if_true] at hs
    cases hn : att_value atts "name" with
    | none => simp [hn] at hs
    | some name =>
      simp only [hn] at hs
      split at hs
      · simp at hs
      · rename_i hver
        cases hs
        exact ⟨h1, ⟨name, uppercase_dup name, _, [], []⟩, rfl, hver, rfl, rfl, rfl, rfl, rfl⟩
  · simp only [h1, if_false] at hs
    by_cases h2 : element_name = "request" ∨ element_name = "event"
    · right; left
      simp only [h2, if_true] at hs
      refine ⟨h2, ?_⟩
      cases hn : att_value atts "name" with
      | none => simp [hn] at hs
      | some name =>
        simp only [hn] at hs
        cases hp : ctx.interface with
        | none => simp [hp] at hs
        | some p =>
          simp only [hp] at hs
          cases hi : ctx.protocol.interface_list[p]? with
          | none => simp [hi] at hs
          | some i =>
            simp only [hi] at hs
            by_cases hreq : element_name = "request"
            · simp only [hreq, if_true] at hs ⊢
              cases hs
              exact ⟨p, i, ⟨name, uppercase_dup name, []⟩, _, rfl, rfl, rfl, rfl, hi, rfl,
                rfl, rfl⟩
            · simp only [hreq, if_false] at hs ⊢
              cases hs
              exact ⟨p, i, ⟨name, uppercase_dup name, []⟩, _, rfl, rfl, rfl, rfl, hi, rfl,
                rfl, rfl⟩
    · simp only [h2, if_false] at hs
      by_cases h3 : element_name = "arg"
      · right; right; left
        simp only [h3, if_true] at hs
        refine ⟨h3, ?_⟩
        cases hn : att_value atts "name" with
        | none => simp [hn] at hs
        | some name =>
          cases ht : att_value atts "type" with
          | none => simp [hn, ht] at hs
          | some type =>
            cases hr : ctx.message with
            | none => simp [hn, ht, hr] at hs
            | some r =>
              cases hi : ctx.protocol.interface_list[r.interface]? with
              | none => simp [hn, ht, hr, hi] at hs
              | some i =>
                cases hm : (i.message_list r.list)[r.index]? with
                | none => simp [hn, ht, hr, hi, hm] at hs
                | some m =>
                  simp only [hn, ht, hr, hi, hm] at hs
                  cases hs
                  refine ⟨r, i, m, arg_of_type name type, ?_, rfl, hi, hm, rfl, rfl, rfl⟩
                  rw [(arg_of_type_spec name type).1]
      · right; right; right
        simp only [h3, if_false] at hs
        cases hs
        exact ⟨h1, fun h => h2 (Or.inl h), fun h => h2 (Or.inr h), h3, rfl⟩

/-! ## C19: the cursors of the builder -/

theorem message_at_eq_some (p : protocol) (r : message_ref) (m : message) :
    p.message_at r = some m ↔
      ∃ i, p.interface_list[r.interface]? = some i ∧ (i.message_list r.list)[r.index]? = some m
    := by
  unfold protocol.message_at
  cases p.interface_list[r.interface]? with
  | none => simp
  | some i => simp

theorem message_list_set_message_list_ne (i : interface) (r s : message_list_ref)
    (l : List message) (h : s ≠ r) : (i.set_message_list r l).message_list s = i.message_list s
    := by
  cases r <;> cases s <;> first | rfl | exact absurd rfl h

theorem start_element_cursors_valid (ctx ctx1 : parse_context) (element_name : String)
    (atts : List (String × String)) (h : cursors_valid ctx)
    (hs : start_element ctx element_name atts = .ok ctx1) : cursors_valid ctx1 := by
  obtain ⟨hint, hmsg⟩ := h
  rcases start_element_ok ctx ctx1 element_name atts hs with
    ⟨_, new, _, _, _, _, hl, hi, hm⟩ | ⟨_, p, i, m, list, _, _, _, hp, hpi, hl, hi, hm⟩
    | ⟨_, r, i, m, a, _, hr, hri, hrm, hl, hi, hm⟩ | ⟨_, _, _, _, rfl⟩
  · refine ⟨?_, ?_⟩
    · intro p hp
      rw [hi] at hp
      cases hp
      simp [hl]
    · intro r hr
      rw [hm] at hr
      obtain ⟨p, m, hp, hle, hat⟩ := hmsg r hr
      have hlt := hint p hp
      obtain ⟨i, hi1, hi2⟩ := (message_at_eq_some _ _ _).mp hat
      refine ⟨_, m, hi, by omega, ?_⟩
      rw [message_at_eq_some]
      refine ⟨i, ?_, hi2⟩
      rw [hl, List.getElem?_append_left (by omega)]
      exact hi1
  · have hlt : p < ctx.protocol.interface_list.length := (List.getElem?_eq_some_iff.mp hpi).1
    refine ⟨?_, ?_⟩
    · intro q hq
      rw [hi] at hq
      cases hq
      simp [hl, hlt]
    · intro r hr
      rw [hm] at hr
      cases hr
      refine ⟨p, m, hi, Nat.le_refl _, ?_⟩
      rw [message_at_eq_some]
      refine ⟨_, by simp only [hl]; rw [List.getElem?_set_self (by exact hlt)], ?_⟩
      simp [message_list_set_message_list]
  · refine ⟨?_, ?_⟩
    · intro q hq
      rw [hi] at hq
      simpa [hl] using hint q hq
    · intro r1 hr1
      rw [hm] at hr1
      obtain ⟨p, m1, hp, hle, hat⟩ := hmsg r1 hr1
      rw [hr] at hr1
      cases hr1
      have hlt : r.interface < ctx.protocol.interface_list.length :=
        (List.getElem?_eq_some_iff.mp hri).1
      have hlt2 : r.index < (i.message_list r.list).length :=
        (List.getElem?_eq_some_iff.mp hrm).1
      refine ⟨p, message.mk m.name m.uppercase_name (m.arg_list ++ [a]),
        by rw [hi]; exact hp, hle, ?_⟩
      rw [message_at_eq_some]
      refine ⟨_, by simp only [hl]; rw [List.getElem?_set_self (by exact hlt)], ?_⟩
      rw [message_list_set_message_list, List.getElem?_set_self (by exact hlt2)]
  · exact ⟨hint, hmsg⟩

theorem parse_cursors_valid (input : List (String × List (String × String)))
    (ctx ctx1 : parse_context) (h : cursors_valid ctx)
    (hs : parse ctx input = .ok ctx1) : cursors_valid ctx1 := by
  induction input generalizing ctx with
  | nil =>
    cases hs
    exact h
  | cons x rest ih =>
    obtain ⟨element_name, atts⟩ := x
    simp only [parse] at hs
    cases hstep : start_element ctx element_name atts with
    | error e => simp [hstep] at hs
    | ok ctx2 =>
      simp only [hstep] at hs
      exact ih ctx2 (start_element_cursors_valid ctx ctx2 element_name atts h hstep) hs

theorem initial_context_cursors_valid : cursors_valid initial_context := by
  constructor <;> intro _ h <;> simp [initial_context] at h

theorem start_element_message_in_current (ctx ctx1 : parse_context) (element_name : String)
    (atts : List (String × String))
    (hs : start_element ctx element_name atts = .ok ctx1)
    (h : element_name ≠ "interface" ∧ message_in_current_interface ctx
          ∨ element_name = "request" ∨ element_name = "event") :
    message_in_current_interface ctx1 := by
  rcases start_element_ok ctx ctx1 element_name atts hs with
    ⟨h1, _⟩ | ⟨_, p, i, m, list, _, _, _, hp, hpi, hl, hi, hm⟩
    | ⟨_, r, i, m, a, _, hr, hri, hrm, hl, hi, hm⟩ | ⟨h1, h2, h3, _, rfl⟩
  · rcases h with ⟨h, _⟩ | h | h
    · exact absurd h1 h
    · rw [h1] at h; exact absurd h (by decide)
    · rw [h1] at h; exact absurd h (by decide)
  · intro r hr
    rw [hm] at hr
    cases hr
    exact hi
  · rcases h with ⟨_, h⟩ | h | h
    · intro r1 hr1
      rw [hi]
      exact h r1 (hm ▸ hr1)
    · rename_i harg _
      rw [harg] at h; exact absurd h (by decide)
    · rename_i harg _
      rw [harg] at h; exact absurd h (by decide)
  · rcases h with ⟨_, h⟩ | h | h
    · exact h
    · exact absurd h h2
    · exact absurd h h3

theorem parse_message_in_current (input : List (String × List (String × String)))
    (ctx ctx1 : parse_context) (h : message_in_current_interface ctx)
    (hno : ∀ e ∈ input, e.1 ≠ "interface")
    (hs : parse ctx input = .ok ctx1) : message_in_current_interface ctx1 := by
  induction input generalizing ctx with
  | nil =>
    cases hs
    exact h
  | cons x rest ih =>
    obtain ⟨element_name, atts⟩ := x
    simp only [parse] at hs
    cases hstep : start_element ctx element_name atts with
    | error e => simp [hstep] at hs
    | ok ctx2 =>
      simp only [hstep] at hs
      refine ih ctx2 ?_ (fun e he => hno e (List.mem_cons_of_mem _ he)) hs
      exact start_element_message_in_current ctx ctx2 element_name atts hstep
        (Or.inl ⟨hno (element_name, atts) (List.mem_cons_self _ _), h⟩)

theorem parse_eq_ok_append (ctx ctx2 : parse_context)
    (a b : List (String × List (String × String)))
    (h : parse ctx (a ++ b) = .ok ctx2) :
    ∃ ctx1, parse ctx a = .ok ctx1 ∧ parse ctx1 b = .ok ctx2 := by
  rw [parse_append] at h
  cases h1 : parse ctx a with
  | error e => simp [h1] at h
  | ok ctx1 =>
    simp only [h1] at h
    exact ⟨ctx1, rfl, h⟩

theorem parse_cons_eq_ok (ctx ctx2 : parse_context) (element_name : String)
    (atts : List (String × String)) (rest : List (String × List (String × String)))
    (h : parse ctx ((element_name, atts) :: rest) = .ok ctx2) :
    ∃ ctx1, start_element ctx element_name atts = .ok ctx1 ∧ parse ctx1 rest = .ok ctx2 := by
  simp only [parse] at h
  cases h1 : start_element ctx element_name atts with
  | error e => simp [h1] at h
  | ok ctx1 =>
    simp only [h1] at h
    exact ⟨ctx1, rfl, h⟩

/-- C19, as the code has it. For every input the builder accepts, the current interface,
when set, is an entry of the interface list, and the current message, when set, is an
entry of a message list of the current interface or of an earlier interface; it is an
entry of a list of the current interface when a `request` or `event` element has been
seen since the last `interface` element. An `arg` element is appended to the current
message, and an `interface` element leaves the current message as it was (so an `arg`
element that follows it is appended to a message of an earlier interface). -/
theorem parse_current_message (input : List (String × List (String × String)))
    (ctx : parse_context) (hparse : parse initial_context input = .ok ctx) :
    (∀ p, ctx.interface = some p → p < ctx.protocol.interface_list.length)
    ∧ (∀ r, ctx.message = some r →
        ∃ p m, ctx.interface = some p ∧ r.interface ≤ p
          ∧ ctx.protocol.message_at r = some m)
    ∧ (∀ before element_name atts after,
        input = before ++ (element_name, atts) :: after →
        (element_name = "request" ∨ element_name = "event") →
        (∀ e ∈ after, e.1 ≠ "interface") →
        ∀ r, ctx.message = some r → ctx.interface = some r.interface)
    ∧ (∀ atts ctx1, start_element ctx "arg" atts = .ok ctx1 →
        ∃ r m a, ctx.message = some r ∧ ctx.protocol.message_at r = some m
          ∧ ctx1.protocol.message_at r
              = some { name := m.name, uppercase_name := m.uppercase_name,
                       arg_list := m.arg_list ++ [a] }
          ∧ ctx1.interface = ctx.interface ∧ ctx1.message = ctx.message)
    ∧ (∀ atts ctx1, start_element ctx "interface" atts = .ok ctx1 →
        ctx1.message = ctx.message) := by
  have hv := parse_cursors_valid input initial_context ctx initial_context_cursors_valid hparse
  refine ⟨hv.1, hv.2, ?_, ?_, ?_⟩
  · intro before element_name atts after hin htag hno
    subst hin
    obtain ⟨ctx1, h1, h2⟩ := parse_eq_ok_append _ _ _ _ hparse
    obtain ⟨ctx2, h3, h4⟩ := parse_cons_eq_ok _ _ _ _ _ h2
    exact parse_message_in_current after ctx2 ctx
      (start_element_message_in_current ctx1 ctx2 element_name atts h3 (Or.inr htag)) hno h4
  · intro atts ctx1 hs
    rcases start_element_ok ctx ctx1 "arg" atts hs with
      ⟨h1, _⟩ | ⟨h1, _⟩ | ⟨_, r, i, m, a, _, hr, hri, hrm, hl, hi, hm⟩ | ⟨_, _, _, h1, _⟩
    · exact absurd h1 (by decide)
    · exact absurd h1 (by decide)
    · have hlt : r.interface < ctx.protocol.interface_list.length :=
        (List.getElem?_eq_some_iff.mp hri).1
      have hlt2 : r.index < (i.message_list r.list).length :=
        (List.getElem?_eq_some_iff.mp hrm).1
      refine ⟨r, m, a, hr, (message_at_eq_some _ _ _).mpr ⟨i, hri, hrm⟩, ?_, hi, hm⟩
      rw [message_at_eq_some]
      refine ⟨_, by simp only [hl]; rw [List.getElem?_set_self (by exact hlt)], ?_⟩
      rw [message_list_set_message_list, List.getElem?_set_self (by exact hlt2)]
    · exact absurd rfl h1
  · intro atts ctx1 hs
    rcases start_element_ok ctx ctx1 "interface" atts hs with
      ⟨_, _, _, _, _, _, _, _, hm⟩ | ⟨h1, _⟩ | ⟨h1, _⟩ | ⟨h1, _⟩
    · exact hm
    · exact absurd h1 (by decide)
    · exact absurd h1 (by decide)
    · exact absurd rfl h1

/-- Witness of `parse_current_message`: after `stale_message_input` the current message
is an entry of the first interface, the current interface is the second. -/
theorem parse_current_message_witness :
    parse initial_context stale_message_input = .ok stale_message_context
    ∧ ∀ r, stale_message_context.message = some r →
        ∃ p m, stale_message_context.interface = some p ∧ r.interface ≤ p
          ∧ stale_message_context.protocol.message_at r = some m :=
  ⟨rfl, (parse_current_message stale_message_input stale_message_context rfl).2.1⟩

/-- C19 fails as stated: `stale_message_input` is accepted; its `arg` element comes
after the second `interface` element and is appended to the request `sync` of the first
interface; afterwards the current interface is the second one, whose lists are empty,
and the current message is that request of the first interface. -/
theorem arg_after_interface_goes_to_earlier_interface :
    parse initial_context stale_message_input = .ok stale_message_context
    ∧ stale_message_context.interface = some 1
    ∧ stale_message_context.message
        = some { interface := 0, list := .request_list, index := 0 }
    ∧ stale_message_context.protocol.interface_list[1]?
        = some { name := "second", uppercase_name := "SECOND", version := 1,
                 request_list := [], event_list := [] }
    ∧ stale_message_context.protocol.message_at
          { interface := 0, list := .request_list, index := 0 }
        = some { name := "sync", uppercase_name := "SYNC",
                 arg_list := [{ name := "key", type := .UNSIGNED, object_name := none }] }
    ∧ ¬ (∀ r, stale_message_context.message = some r →
          stale_message_context.interface = some r.interface) := by
  refine ⟨rfl, rfl, rfl, rfl, rfl, ?_⟩
  intro h
  have := h _ rfl
  exact absurd this (by decide)

/-! ## C11: entries are appended at the tail -/

theorem message_extends_refl (m : message) : message_extends m m :=
  ⟨rfl, rfl, List.prefix_refl _⟩

theorem message_extends_trans {a b c : message} (h1 : message_extends a b)
    (h2 : message_extends b c) : message_extends a c :=
  ⟨h2.1.trans h1.1, h2.2.1.trans h1.2.1, h1.2.2.trans h2.2.2⟩

theorem message_list_extends_refl (l : List message) : message_list_extends l l :=
  fun _ m h => ⟨m, h, message_extends_refl m⟩

theorem message_list_extends_trans {a b c : List message} (h1 : message_list_extends a b)
    (h2 : message_list_extends b c) : message_list_extends a c := by
  intro k m h
  obtain ⟨m1, hm1, e1⟩ := h1 k m h
  obtain ⟨m2, hm2, e2⟩ := h2 k m1 hm1
  exact ⟨m2, hm2, message_extends_trans e1 e2⟩

theorem message_list_extends_append (l : List message) (m : message) :
    message_list_extends l (l ++ [m]) := by
  intro k x h
  refine ⟨x, ?_, message_extends_refl x⟩
  rw [List.getElem?_append_left (List.getElem?_eq_some_iff.mp h).1]
  exact h

theorem message_list_extends_set (l : List message) (k : Nat) (m m1 : message)
    (h : l[k]? = some m) (he : message_extends m m1) :
    message_list_extends l (l.set k m1) := by
  intro j x hx
  by_cases hj : k = j
  · subst hj
    rw [h] at hx
    cases hx
    exact ⟨m1, List.getElem?_set_self (List.getElem?_eq_some_iff.mp h).1, he⟩
  · exact ⟨x, by rw [List.getElem?_set_ne hj]; exact hx, message_extends_refl x⟩

theorem interface_extends_refl (i : interface) : interface_extends i i :=
  ⟨rfl, rfl, rfl, message_list_extends_refl _, message_list_extends_refl _⟩

theorem interface_extends_trans {a b c : interface} (h1 : interface_extends a b)
    (h2 : interface_extends b c) : interface_extends a c :=
  ⟨h2.1.trans h1.1, h2.2.1.trans h1.2.1, h2.2.2.1.trans h1.2.2.1,
    message_list_extends_trans h1.2.2.2.1 h2.2.2.2.1,
    message_list_extends_trans h1.2.2.2.2 h2.2.2.2.2⟩

theorem interface_extends_set_message_list (i : interface) (r : message_list_ref)
    (l : List message) (h : message_list_extends (i.message_list r) l) :
    interface_extends i (i.set_message_list r l) := by
  cases r with
  | request_list => exact ⟨rfl, rfl, rfl, h, message_list_extends_refl _⟩
  | event_list => exact ⟨rfl, rfl, rfl, message_list_extends_refl _, h⟩

theorem protocol_extends_refl (p : protocol) : protocol_extends p p :=
  fun _ i h => ⟨i, h, interface_extends_refl i⟩

theorem protocol_extends_trans {a b c : protocol} (h1 : protocol_extends a b)
    (h2 : protocol_extends b c) : protocol_extends a c := by
  intro k i h
  obtain ⟨i1, hi1, e1⟩ := h1 k i h
  obtain ⟨i2, hi2, e2⟩ := h2 k i1 hi1
  exact ⟨i2, hi2, interface_extends_trans e1 e2⟩

theorem protocol_extends_set (l l1 : List interface) (k : Nat) (i i1 : interface)
    (h : l[k]? = some i) (he : interface_extends i i1) (hl : l1 = l.set k i1) :
    protocol_extends ⟨l⟩ ⟨l1⟩ := by
  subst hl
  intro j x hx
  by_cases hj : k = j
  · subst hj
    simp only at hx
    rw [h] at hx
    cases hx
    exact ⟨i1, List.getElem?_set_self (List.getElem?_eq_some_iff.mp h).1, he⟩
  · exact ⟨x, by simp only; rw [List.getElem?_set_ne hj]; exact hx, interface_extends_refl x⟩

theorem start_element_extends (ctx ctx1 : parse_context) (element_name : String)
    (atts : List (String × String))
    (hs : start_element ctx element_name atts = .ok ctx1) :
    protocol_extends ctx.protocol ctx1.protocol := by
  rcases start_element_ok ctx ctx1 element_name atts hs with
    ⟨_, new, _, _, _, _, hl, _, _⟩ | ⟨_, p, i, m, list, _, _, _, hp, hpi, hl, hi, hm⟩
    | ⟨_, r, i, m, a, _, hr, hri, hrm, hl, hi, hm⟩ | ⟨_, _, _, _, rfl⟩
  · intro k i h
    refine ⟨i, ?_, interface_extends_refl i⟩
    rw [hl, List.getElem?_append_left (List.getElem?_eq_some_iff.mp h).1]
    exact h
  · exact protocol_extends_set _ _ p i _ hpi
      (interface_extends_set_message_list i list _ (message_list_extends_append _ m)) hl
  · exact protocol_extends_set _ _ r.interface i _ hri
      (interface_extends_set_message_list i r.list _
        (message_list_extends_set _ r.index m (message.mk m.name m.uppercase_name
          (m.arg_list ++ [a])) hrm ⟨rfl, rfl, List.prefix_append _ _⟩)) hl
  · exact protocol_extends_refl _

theorem parse_extends (input : List (String × List (String × String)))
    (ctx ctx1 : parse_context) (hs : parse ctx input = .ok ctx1) :
    protocol_extends ctx.protocol ctx1.protocol := by
  induction input generalizing ctx with
  | nil =>
    cases hs
    exact protocol_extends_refl _
  | cons x rest ih =>
    obtain ⟨element_name, atts⟩ := x
    obtain ⟨ctx2, h1, h2⟩ := parse_cons_eq_ok _ _ _ _ _ hs
    exact protocol_extends_trans (start_element_extends ctx ctx2 element_name atts h1)
      (ih ctx2 h2)

theorem map_name_set (l : List interface) (k : Nat) (i i1 : interface)
    (h : l[k]? = some i) (hn : i1.name = i.name) :
    (l.set k i1).map (fun x => x.name) = l.map (fun x => x.name) := by
  apply List.ext_getElem?
  intro j
  rw [List.getElem?_map, List.getElem?_map]
  by_cases hj : k = j
  · subst hj
    rw [List.getElem?_set_self (List.getElem?_eq_some_iff.mp h).1, h]
    simp [hn]
  · rw [List.getElem?_set_ne hj]

theorem name_set_message_list (i : interface) (r : message_list_ref) (l : List message) :
    (i.set_message_list r l).name = i.name := by
  cases r <;> rfl

theorem start_element_interface_names (ctx ctx1 : parse_context) (element_name : String)
    (atts : List (String × String))
    (hs : start_element ctx element_name atts = .ok ctx1) :
    ctx1.protocol.interface_list.map (fun x => x.name)
      = ctx.protocol.interface_list.map (fun x => x.name)
          ++ document_interface_names [(element_name, atts)] := by
  rcases start_element_ok ctx ctx1 element_name atts hs with
    ⟨h1, new, hn, _, _, _, hl, _, _⟩ | ⟨h1, p, i, m, list, _, _, _, hp, hpi, hl, hi, hm⟩
    | ⟨h1, r, i, m, a, _, hr, hri, hrm, hl, hi, hm⟩ | ⟨h1, _, _, _, rfl⟩
  · simp [document_interface_names, h1, hn, hl]
  · have hne : element_name ≠ "interface" := by
      rcases h1 with h | h <;> rw [h] <;> decide
    rw [hl, map_name_set _ p i _ hpi (name_set_message_list _ _ _)]
    simp [document_interface_names, hne]
  · have hne : element_name ≠ "interface" := by rw [h1]; decide
    rw [hl, map_name_set _ r.interface i _ hri (name_set_message_list _ _ _)]
    simp [document_interface_names, hne]
  · simp [document_interface_names, h1]

theorem parse_interface_names (input : List (String × List (String × String)))
    (ctx ctx1 : parse_context) (hs : parse ctx input = .ok ctx1) :
    ctx1.protocol.interface_list.map (fun x => x.name)
      = ctx.protocol.interface_list.map (fun x => x.name)
          ++ document_interface_names input := by
  induction input generalizing ctx with
  | nil =>
    cases hs
    simp [document_interface_names]
  | cons x rest ih =>
    obtain ⟨element_name, atts⟩ := x
    obtain ⟨ctx2, h1, h2⟩ := parse_cons_eq_ok _ _ _ _ _ hs
    rw [ih ctx2 h2, start_element_interface_names ctx ctx2 element_name atts h1,
      List.append_assoc]
    congr 1
    unfold document_interface_names
    rw [← List.filterMap_append]
    rfl

/-- C11. For every accepted input and every element of it, handled in the state `ctx` the
elements before it leave and giving the state `ctx1`: an `interface` element makes the
interface list the old list with the new interface appended; a `request` (`event`)
element replaces the current interface, in place, by itself with the request (event)
list extended by the new message at the tail, the other list unchanged; an `arg` element
replaces the current message, in place, by itself with the new argument appended at the
tail of its argument list. Every entry of every list of `ctx` is at the same index in
`ctx1`, and every entry of every list of `ctx1` is at the same index in the final
protocol, changed only by entries appended at the tail of its own lists. The names of
the interfaces of the final protocol are the names of the `interface` elements in
document order. -/
theorem parse_appends_at_tail (before after : List (String × List (String × String)))
    (element_name : String) (atts : List (String × String)) (ctx2 : parse_context)
    (hparse : parse initial_context (before ++ (element_name, atts) :: after) = .ok ctx2) :
    ∃ ctx ctx1, parse initial_context before = .ok ctx
      ∧ start_element ctx element_name atts = .ok ctx1
      ∧ parse ctx1 after = .ok ctx2
      ∧ (element_name = "interface" → ∃ new : interface,
          att_value atts "name" = some new.name
          ∧ new.request_list = [] ∧ new.event_list = []
          ∧ ctx1.protocol.interface_list = ctx.protocol.interface_list ++ [new])
      ∧ (element_name = "request" ∨ element_name = "event" → ∃ p i i1 m,
          att_value atts "name" = some m.name ∧ m.arg_list = []
          ∧ ctx.interface = some p ∧ ctx.protocol.interface_list[p]? = some i
          ∧ ctx1.protocol.interface_list = ctx.protocol.interface_list.set p i1
          ∧ i1.name = i.name ∧ i1.uppercase_name = i.uppercase_name
          ∧ i1.version = i.version
          ∧ (element_name = "request" →
              i1.request_list = i.request_list ++ [m] ∧ i1.event_list = i.event_list)
          ∧ (element_name = "event" →
              i1.event_list = i.event_list ++ [m] ∧ i1.request_list = i.request_list))
      ∧ (element_name = "arg" → ∃ r i m a,
          att_value atts "name" = some a.name
          ∧ ctx.message = some r ∧ ctx.protocol.interface_list[r.interface]? = some i
          ∧ (i.message_list r.list)[r.index]? = some m
          ∧ ctx1.protocol.interface_list
              = ctx.protocol.interface_list.set r.interface
                  (i.set_message_list r.list ((i.message_list r.list).set r.index
                    { name := m.name, uppercase_name := m.uppercase_name,
                      arg_list := m.arg_list ++ [a] })))
      ∧ protocol_extends ctx.protocol ctx1.protocol
      ∧ protocol_extends ctx1.protocol ctx2.protocol
      ∧ ctx2.protocol.interface_list.map (fun i => i.name)
          = document_interface_names (before ++ (element_name, atts) :: after) := by
  obtain ⟨ctx, h1, h2⟩ := parse_eq_ok_append _ _ _ _ hparse
  obtain ⟨ctx1, h3, h4⟩ := parse_cons_eq_ok _ _ _ _ _ h2
  refine ⟨ctx, ctx1, h1, h3, h4, ?_, ?_, ?_, start_element_extends _ _ _ _ h3,
    parse_extends _ _ _ h4, ?_⟩
  · intro htag
    rcases start_element_ok ctx ctx1 element_name atts h3 with
      ⟨_, new, hn, _, hq, he, hl, _, _⟩ | ⟨h, _⟩ | ⟨h, _⟩ | ⟨h, _⟩
    · exact ⟨new, hn, hq, he, hl⟩
    · rw [htag] at h; exact absurd h (by decide)
    · rw [htag] at h; exact absurd h (by decide)
    · exact absurd htag h
  · intro htag
    rcases start_element_ok ctx ctx1 element_name atts h3 with
      ⟨h, _⟩ | ⟨_, p, i, m, list, hlist, hn, ha, hp, hpi, hl, _, _⟩ | ⟨h, _⟩ | ⟨_, h5, h6, _⟩
    · rw [h] at htag; exact absurd htag (by decide)
    · refine ⟨p, i, _, m, hn, ha, hp, hpi, hl, ?_⟩
      by_cases hreq : element_name = "request"
      · have hev : element_name ≠ "event" := by rw [hreq]; decide
        simp only [hreq, if_true] at hlist
        subst hlist
        exact ⟨rfl, rfl, rfl, fun _ => ⟨rfl, rfl⟩, fun h => absurd (hreq ▸ h) (by decide)⟩
      · simp only [hreq, if_false] at hlist
        subst hlist
        exact ⟨rfl, rfl, rfl, fun h => absurd h hreq, fun _ => ⟨rfl, rfl⟩⟩
    · rw [h] at htag; exact absurd htag (by decide)
    · rcases htag with h | h
      · exact absurd h h5
      · exact absurd h h6
  · intro htag
    rcases start_element_ok ctx ctx1 element_name atts h3 with
      ⟨h, _⟩ | ⟨h, _⟩ | ⟨_, r, i, m, a, hn, hr, hri, hrm, hl, _, _⟩ | ⟨_, _, _, h, _⟩
    · rw [htag] at h; exact absurd h (by decide)
    · rw [htag] at h; exact absurd h (by decide)
    · exact ⟨r, i, m, a, hn, hr, hri, hrm, hl⟩
    · exact absurd htag h
  · have := parse_interface_names _ _ _ hparse
    simpa [initial_context] using this

/-- Witness of `parse_appends_at_tail`: the `request` element of the scenario. -/
theorem parse_appends_at_tail_witness :
    parse initial_context
        ([("protocol", []), ("interface", [("name", "wl_demo"), ("version", "3")])]
          ++ ("request", [("name", "destroy")])
            :: [("event", [("name", "done")]),
                ("arg", [("name", "serial"), ("type", "uint")])])
      = .ok demo_context
    ∧ ∃ ctx ctx1,
        parse initial_context
            [("protocol", []), ("interface", [("name", "wl_demo"), ("version", "3")])]
          = .ok ctx
        ∧ start_element ctx "request" [("name", "destroy")] = .ok ctx1
        ∧ protocol_extends ctx.protocol ctx1.protocol
        ∧ protocol_extends ctx1.protocol demo_context.protocol :=
  ⟨rfl,
   match parse_appends_at_tail
      [("protocol", []), ("interface", [("name", "wl_demo"), ("version", "3")])]
      [("event", [("name", "done")]), ("arg", [("name", "serial"), ("type", "uint")])]
      "request" [("name", "destroy")] demo_context rfl with
   | ⟨ctx, ctx1, h1, h2, _, _, _, _, h3, h4, _⟩ => ⟨ctx, ctx1, h1, h2, h3, h4⟩⟩

/-! ## C20: `uppercase_dup` -/

theorem toupper_toNat_of_lower (c : Char) (h1 : 97 ≤ c.toNat) (h2 : c.toNat ≤ 122) :
    (toupper c).toNat = c.toNat - 32 := by
  unfold toupper
  rw [if_pos ⟨h1, h2⟩]
  generalize c.toNat = n at h1 h2
  interval_cases n <;> rfl

theorem toupper_of_not_lower (c : Char) (h : ¬ (97 ≤ c.toNat ∧ c.toNat ≤ 122)) :
    toupper c = c := by
  unfold toupper
  rw [if_neg h]

theorem toupper_toupper (c : Char) : toupper (toupper c) = toupper c := by
  by_cases h : 97 ≤ c.toNat ∧ c.toNat ≤ 122
  · apply toupper_of_not_lower
    rw [toupper_toNat_of_lower c h.1 h.2]
    omega
  · rw [toupper_of_not_lower c h, toupper_of_not_lower c h]

/-- C20. For every name, the uppercase form `uppercase_dup` makes has the length of the
name and its `k`-th character is `toupper` of the `k`-th character of the name; `toupper`
maps each letter `a` to `z` (codes 97 to 122) to the letter 32 codes below, the
corresponding one of `A` to `Z`, and leaves every other character as it is (digits,
the underscore, the letters `A` to `Z`); so `uppercase_dup` is idempotent. -/
theorem uppercase_dup_spec (src : String) :
    (uppercase_dup src).length = src.length
    ∧ (∀ k : Nat, (uppercase_dup src).data[k]? = src.data[k]?.map toupper)
    ∧ (∀ c : Char, 97 ≤ c.toNat → c.toNat ≤ 122 → (toupper c).toNat = c.toNat - 32)
    ∧ (∀ c : Char, ¬ (97 ≤ c.toNat ∧ c.toNat ≤ 122) → toupper c = c)
    ∧ uppercase_dup (uppercase_dup src) = uppercase_dup src
    ∧ uppercase_dup "wl_demo9_A" = "WL_DEMO9_A" := by
  refine ⟨?_, ?_, toupper_toNat_of_lower, toupper_of_not_lower, ?_, by decide⟩
  · show (src.data.map toupper).length = src.data.length
    exact List.length_map _ _
  · intro k
    simp [uppercase_dup]
  · have : toupper ∘ toupper = toupper := funext toupper_toupper
    simp [uppercase_dup, this]

/-! ## The format strings of the emitters -/

theorem calls_of_append (fmt : String) (a b : List printf_call) :
    calls_of fmt (a ++ b) = calls_of fmt a ++ calls_of fmt b := by
  simp [calls_of]

theorem calls_of_flatMap {α : Type} (fmt : String) (f : α → List printf_call) (l : List α) :
    calls_of fmt (l.flatMap f) = l.flatMap fun x => calls_of fmt (f x) := by
  induction l with
  | nil => rfl
  | cons x rest ih => simp [calls_of_append, ih]

theorem calls_of_eq_nil (fmt : String) (out : List printf_call) (formats : List String)
    (h : ∀ c ∈ out, c.fmt ∈ formats) (hf : fmt ∉ formats) : calls_of fmt out = [] := by
  unfold calls_of
  rw [List.filter_eq_nil_iff]
  intro c hc
  have := h c hc
  simp only [decide_eq_true_eq]
  intro heq
  exact hf (heq ▸ this)

theorem emit_structs_args_formats (l : List arg) :
    ∀ c ∈ emit_structs_args l, c.fmt ∈ emit_structs_formats := by
  induction l with
  | nil => simp [emit_structs_args]
  | cons a rest ih =>
    intro c hc
    simp only [emit_structs_args, List.mem_cons] at hc
    rcases hc with hc | hc | hc
    · subst hc
      unfold emit_structs_type
      cases a.type <;> simp [emit_structs_formats]
    · subst hc
      simp [emit_structs_formats]
    · exact ih c hc

theorem emit_structs_message_formats (b : Bool) (i : interface) (m : message) :
    ∀ c ∈ emit_structs_message b i m, c.fmt ∈ emit_structs_formats := by
  intro c hc
  simp only [emit_structs_message, List.mem_append, List.mem_singleton] at hc
  rcases hc with (((hc | hc) | hc) | hc) | hc
  · subst hc; simp [emit_structs_formats]
  · subst hc; cases b <;> simp [emit_structs_formats]
  · cases h : m.arg_list <;> simp [h] at hc
    subst hc; simp [emit_structs_formats]
  · exact emit_structs_args_formats _ c hc
  · subst hc; simp [emit_structs_formats]

theorem emit_structs_uses_formats (r : message_list_ref) (i : interface) :
    ∀ c ∈ emit_structs r i, c.fmt ∈ emit_structs_formats := by
  intro c hc
  simp only [emit_structs, emit_structs_loop_eq, List.mem_append, List.mem_singleton,
    List.mem_flatMap] at hc
  rcases hc with (hc | ⟨m, _, hc⟩) | hc
  · subst hc; simp [emit_structs_formats]
  · exact emit_structs_message_formats _ i m c hc
  · subst hc; simp [emit_structs_formats]

theorem emit_opcodes_loop_formats (i : interface) (l : List message) (opcode : Int) :
    ∀ c ∈ emit_opcodes_loop i l opcode, c.fmt ∈ emit_opcodes_formats := by
  induction l generalizing opcode with
  | nil => simp [emit_opcodes_loop]
  | cons m rest ih =>
    intro c hc
    simp only [emit_opcodes_loop, List.mem_cons] at hc
    rcases hc with hc | hc
    · subst hc; simp [emit_opcodes_formats]
    · exact ih _ c hc

theorem emit_opcodes_uses_formats (l : List message) (i : interface) :
    ∀ c ∈ emit_opcodes l i, c.fmt ∈ emit_opcodes_formats := by
  intro c hc
  unfold emit_opcodes at hc
  split at hc
  · simp at hc
  · simp only [List.mem_append, List.mem_singleton] at hc
    rcases hc with hc | hc
    · exact emit_opcodes_loop_formats i l 0 c hc
    · subst hc; simp [emit_opcodes_formats]

theorem emit_messages_args_formats (l : List arg) :
    ∀ c ∈ emit_messages_args l, c.fmt ∈ emit_messages_formats := by
  induction l with
  | nil => simp [emit_messages_args]
  | cons a rest ih =>
    intro c hc
    simp only [emit_messages_args, List.mem_cons] at hc
    rcases hc with hc | hc
    · subst hc
      unfold emit_messages_type
      cases a.type <;> simp [emit_messages_formats]
    · exact ih c hc

theorem emit_messages_uses_formats (l : List message) (i : interface) (suffix : String) :
    ∀ c ∈ emit_messages l i suffix, c.fmt ∈ emit_messages_formats := by
  intro c hc
  unfold emit_messages at hc
  split at hc
  · simp at hc
  · simp only [emit_messages_loop_eq, List.mem_append, List.mem_singleton,
      List.mem_flatMap, emit_messages_message] at hc
    rcases hc with (hc | ⟨m, _, (hc | hc) | hc⟩) | hc
    · subst hc; simp [emit_messages_formats]
    · subst hc; simp [emit_messages_formats]
    · exact emit_messages_args_formats _ c hc
    · subst hc; simp [emit_messages_formats]
    · subst hc; simp [emit_messages_formats]

/-! ## C15: descriptor symbols -/

theorem calls_of_emit_structs (fmt : String) (r : message_list_ref) (i : interface)
    (h : fmt ∉ emit_structs_formats) : calls_of fmt (emit_structs r i) = [] :=
  calls_of_eq_nil fmt _ _ (emit_structs_uses_formats r i) h

theorem calls_of_emit_opcodes (fmt : String) (l : List message) (i : interface)
    (h : fmt ∉ emit_opcodes_formats) : calls_of fmt (emit_opcodes l i) = [] :=
  calls_of_eq_nil fmt _ _ (emit_opcodes_uses_formats l i) h

theorem calls_of_emit_messages (fmt : String) (l : List message) (i : interface)
    (suffix : String) (h : fmt ∉ emit_messages_formats) :
    calls_of fmt (emit_messages l i suffix) = [] :=
  calls_of_eq_nil fmt _ _ (emit_messages_uses_formats l i suffix) h

theorem emit_header_declarations_eq (l : List interface) :
    emit_header_declarations l = l.map fun i => printf "struct wl_%s;\n" [.s i.name] := by
  induction l with
  | nil => rfl
  | cons i rest ih => simp [emit_header_declarations, ih]

theorem flatMap_singleton_eq_map {α β : Type} (f : α → β) (l : List α) :
    (l.flatMap fun x => [f x]) = l.map f := by
  induction l with
  | nil => rfl
  | cons x rest ih => simp [ih]

theorem flatMap_nil_eq {α β : Type} (l : List α) :
    (l.flatMap fun _ => ([] : List β)) = [] := by
  induction l with
  | nil => rfl
  | cons x rest ih => simp [ih]

theorem calls_of_extern_emit_header_interface (server : Int) (i : interface) :
    calls_of "extern const struct wl_interface wl_%s_interface;\n\n"
        (emit_header_interface server i)
      = [printf "extern const struct wl_interface wl_%s_interface;\n\n" [.s i.name]] := by
  have hs := fun r => calls_of_emit_structs
    "extern const struct wl_interface wl_%s_interface;\n\n" r i (by decide)
  have ho := fun l => calls_of_emit_opcodes
    "extern const struct wl_interface wl_%s_interface;\n\n" l i (by decide)
  unfold emit_header_interface
  split <;> rw [calls_of_append, calls_of_append, hs, ho] <;> simp [calls_of]

theorem calls_of_descriptor_emit_code_interface (i : interface) :
    calls_of "WL_EXPORT const struct wl_interface wl_%s_interface = \x7b\n\t\"%s\", %d,\n"
        (emit_code_interface i)
      = [printf "WL_EXPORT const struct wl_interface wl_%s_interface = \x7b\n\t\"%s\", %d,\n"
          [.s i.name, .s i.name, .d i.version]] := by
  have hm := fun l suffix => calls_of_emit_messages
    "WL_EXPORT const struct wl_interface wl_%s_interface = \x7b\n\t\"%s\", %d,\n" l i suffix
    (by decide)
  unfold emit_code_interface
  rw [calls_of_append, calls_of_append, calls_of_append, calls_of_append, calls_of_append,
    hm, hm]
  cases h1 : i.request_list <;> cases h2 : i.event_list <;>
    simp [calls_of, emit_code_requests, emit_code_events, h1, h2]

/-- C15. For every protocol and both roles, the `extern` declarations of descriptors in
the header output are, in order, one per interface of the protocol in protocol order,
and so are the descriptor definitions in the code output; for every interface both name
the symbol `wl_<name>_interface`, built from the interface name as it is. -/
theorem descriptor_symbols (protocol : protocol) (server : Int) :
    calls_of "extern const struct wl_interface wl_%s_interface;\n\n"
        (emit_header protocol server)
      = protocol.interface_list.map (fun i =>
          printf "extern const struct wl_interface wl_%s_interface;\n\n" [.s i.name])
    ∧ calls_of "WL_EXPORT const struct wl_interface wl_%s_interface = \x7b\n\t\"%s\", %d,\n"
        (emit_code protocol)
      = protocol.interface_list.map (fun i =>
          printf "WL_EXPORT const struct wl_interface wl_%s_interface = \x7b\n\t\"%s\", %d,\n"
            [.s i.name, .s i.name, .d i.version])
    ∧ (∀ i : interface,
        (printf "extern const struct wl_interface wl_%s_interface;\n\n" [.s i.name]).text
          = "extern const struct wl_interface " ++ ("wl_" ++ i.name ++ "_interface")
              ++ ";\n\n"
        ∧ (printf "WL_EXPORT const struct wl_interface wl_%s_interface = \x7b\n\t\"%s\", %d,\n"
            [.s i.name, .s i.name, .d i.version]).text
          = "WL_EXPORT const struct wl_interface " ++ ("wl_" ++ i.name ++ "_interface")
              ++ " = \x7b\n\t\"" ++ i.name ++ "\", " ++ toString i.version ++ ",\n") := by
  refine ⟨?_, ?_, ?_⟩
  · simp only [emit_header, emit_header_loop_eq, calls_of_append, calls_of_flatMap,
      calls_of_extern_emit_header_interface, emit_header_declarations_eq]
    rw [flatMap_singleton_eq_map]
    have h1 : ∀ l : List interface, calls_of "extern const struct wl_interface wl_%s_interface;\n\n"
        (l.map fun i => printf "struct wl_%s;\n" [.s i.name]) = [] := by
      intro l
      induction l with
      | nil => rfl
      | cons x rest ih =>
        simp only [List.map_cons]
        rw [show ∀ (c : printf_call) (t : List printf_call), c :: t = [c] ++ t from
          fun _ _ => rfl, calls_of_append, ih]
        simp [calls_of]
    rw [h1]
    simp [calls_of]
  · simp only [emit_code, emit_code_loop_eq, calls_of_append, calls_of_flatMap,
      calls_of_descriptor_emit_code_interface]
    rw [flatMap_singleton_eq_map]
    simp [calls_of]
  · intro i
    constructor
    · simp [printf_call.text, format, String.ext_iff]
    · simp [printf_call.text, format, String.ext_iff]

/-! ## C17: members of the dispatch structs -/

theorem emit_structs_type_text (a : arg) :
    (emit_structs_type a).text = spec_parameter_type a := by
  unfold emit_structs_type spec_parameter_type
  cases a.type <;> rfl

theorem spec_join_cons_cons (p q : String) (rest : List String) :
    spec_join (p :: q :: rest) = p ++ ", " ++ spec_join (q :: rest) := rfl

theorem emit_structs_args_text (l : List arg) :
    stdout_text (emit_structs_args l)
      = spec_join (l.map fun a => spec_parameter_type a ++ a.name) := by
  induction l with
  | nil => rfl
  | cons a rest ih =>
    rw [emit_structs_args, stdout_text_cons, stdout_text_cons, ih, emit_structs_type_text]
    cases rest with
    | nil =>
      simp [printf_call.text, format, String.ext_iff, spec_join]
    | cons b rest2 =>
      simp only [List.map_cons, spec_join_cons_cons]
      simp [printf_call.text, format, String.ext_iff]

theorem emit_structs_message_text (is_interface : Bool) (i : interface) (m : message) :
    stdout_text (emit_structs_message is_interface i m)
      = "\tvoid (*" ++ m.name ++ ")(" ++ spec_join (spec_parameters is_interface i m)
          ++ ");\n" := by
  simp only [emit_structs_message, stdout_text_append, stdout_text_cons, stdout_text_nil,
    emit_structs_args_text, spec_parameters]
  cases h : m.arg_list with
  | nil =>
    cases is_interface <;>
      simp [printf_call.text, format, String.ext_iff, spec_join, stdout_text_nil]
  | cons a rest =>
    cases is_interface <;>
      simp [printf_call.text, format, String.ext_iff, spec_join_cons_cons, stdout_text_cons,
        stdout_text_nil]

theorem calls_of_member_emit_structs_args (l : List arg) :
    calls_of "\tvoid (*%s)(" (emit_structs_args l) = [] := by
  induction l with
  | nil => rfl
  | cons a rest ih =>
    unfold calls_of at ih ⊢
    simp only [emit_structs_args, emit_structs_type]
    cases a.type <;> simp [ih]

theorem calls_of_member_emit_structs_message (b : Bool) (i : interface) (m : message) :
    calls_of "\tvoid (*%s)(" (emit_structs_message b i m)
      = [printf "\tvoid (*%s)(" [.s m.name]] := by
  unfold emit_structs_message
  rw [calls_of_append, calls_of_append, calls_of_append, calls_of_append,
    calls_of_member_emit_structs_args]
  cases b <;> cases m.arg_list <;> simp [calls_of]

/-- C17. For both kinds of dispatch struct and every interface, `emit_structs` writes the
struct opening, one member block per message of the list, in order, and the closing; the
member blocks are the only calls that open a member, one per message, named after the
message. The text of the member block of a message `m` with `n` arguments is the member
opening with the name of `m`, the `n + 2` parameters separated by `", "` with no
separator after the last one, and the closing: first the transport context, then the
handle of the owning interface, then one parameter per argument in declaration order,
named after the argument and typed `int32_t` for Int, `uint32_t` for NewId and Unsigned,
`const char *` for String, `struct wl_<referenced interface> *` for Object and
`struct wl_array *` for Array. -/
theorem emit_structs_members (message_list : message_list_ref) (interface : interface) :
    emit_structs message_list interface
      = [printf "struct wl_%s_%s \x7b\n"
          [.s interface.name,
           .s (if message_list = .request_list then "interface" else "listener")]]
        ++ (interface.message_list message_list).flatMap
            (emit_structs_message (message_list = .request_list) interface)
        ++ [printf "\x7d;\n\n" []]
    ∧ calls_of "\tvoid (*%s)(" (emit_structs message_list interface)
        = (interface.message_list message_list).map
            (fun m => printf "\tvoid (*%s)(" [.s m.name])
    ∧ (∀ (is_interface : Bool) (m : message),
        stdout_text (emit_structs_message is_interface interface m)
          = "\tvoid (*" ++ m.name ++ ")("
              ++ spec_join (spec_parameters is_interface interface m) ++ ");\n"
        ∧ (spec_parameters is_interface interface m).length = m.arg_list.length + 2
        ∧ spec_parameters is_interface interface m
            = (if is_interface then "struct wl_client *client" else "void *data")
              :: ("struct wl_" ++ interface.name ++ " *" ++ interface.name)
              :: m.arg_list.map (fun a => spec_parameter_type a ++ a.name))
    ∧ (∀ a : arg,
        (a.type = .INT → spec_parameter_type a = "int32_t ")
        ∧ (a.type = .NEW_ID → spec_parameter_type a = "uint32_t ")
        ∧ (a.type = .UNSIGNED → spec_parameter_type a = "uint32_t ")
        ∧ (a.type = .STRING → spec_parameter_type a = "const char *")
        ∧ (∀ r, a.type = .OBJECT → a.object_name = some r →
            spec_parameter_type a = "struct wl_" ++ r ++ " *")
        ∧ (a.type = .ARRAY → spec_parameter_type a = "struct wl_array *")) := by
  refine ⟨?_, ?_, ?_, ?_⟩
  · simp [emit_structs, emit_structs_loop_eq]
  · simp only [emit_structs, emit_structs_loop_eq, calls_of_append, calls_of_flatMap,
      calls_of_member_emit_structs_message]
    rw [flatMap_singleton_eq_map]
    cases message_list <;> simp [calls_of]
  · intro is_interface m
    exact ⟨emit_structs_message_text is_interface interface m, by simp [spec_parameters], rfl⟩
  · intro a
    unfold spec_parameter_type
    refine ⟨?_, ?_, ?_, ?_, ?_, ?_⟩ <;> intro h
    · rw [h]
    · rw [h]
    · rw [h]
    · rw [h]
    · intro h1 h2
      rw [h1, h2]
      rfl
    · rw [h]

/-! ## C18: forward declarations -/

theorem calls_of_declaration_emit_header_interface (server : Int) (i : interface) :
    calls_of "struct wl_%s;\n" (emit_header_interface server i) = [] := by
  have hs := fun r => calls_of_emit_structs "struct wl_%s;\n" r i (by decide)
  have ho := fun l => calls_of_emit_opcodes "struct wl_%s;\n" l i (by decide)
  unfold emit_header_interface
  split <;> rw [calls_of_append, calls_of_append, hs, ho] <;> simp [calls_of]

theorem calls_of_declaration_map (l : List interface) :
    calls_of "struct wl_%s;\n" (l.map fun i => printf "struct wl_%s;\n" [.s i.name])
      = l.map fun i => printf "struct wl_%s;\n" [.s i.name] := by
  unfold calls_of
  rw [List.filter_eq_self]
  intro c hc
  obtain ⟨i, _, rfl⟩ := List.mem_map.mp hc
  simp

/-- C18. For every protocol and both roles, what `emit_header` writes after its preamble
is: one forward declaration `struct wl_<name>;` per interface, in protocol order, then an
empty line, then the blocks of the interfaces (which hold all dispatch structs), then the
closing; the forward declarations are the only calls of that form. The handle type
written for an Object argument that references the interface name `r` is
`struct wl_<r> *`, and the handle type written for the owning interface `i` is
`struct wl_<name of i> *`: the type `struct wl_<r>` that the forward declaration of an
interface named `r` declares. -/
theorem forward_declarations (protocol : protocol) (server : Int) :
    (emit_header protocol server).drop 1
      = protocol.interface_list.map (fun i => printf "struct wl_%s;\n" [.s i.name])
        ++ printf "\n" []
          :: (protocol.interface_list.flatMap (emit_header_interface server)
              ++ [printf "#ifdef  __cplusplus\n\x7d\n#endif\n\n#endif\n" []])
    ∧ calls_of "struct wl_%s;\n" (emit_header protocol server)
        = protocol.interface_list.map (fun i => printf "struct wl_%s;\n" [.s i.name])
    ∧ (∀ i : interface,
        (printf "struct wl_%s;\n" [.s i.name]).text = "struct wl_" ++ i.name ++ ";\n"
        ∧ (printf "struct wl_client *client, struct wl_%s *%s" [.s i.name, .s i.name]).text
            = "struct wl_client *client, " ++ ("struct wl_" ++ i.name ++ " *") ++ i.name
        ∧ (printf "void *data, struct wl_%s *%s" [.s i.name, .s i.name]).text
            = "void *data, " ++ ("struct wl_" ++ i.name ++ " *") ++ i.name)
    ∧ (∀ (a : arg) (r : String), a.type = .OBJECT → a.object_name = some r →
        (emit_structs_type a).text = "struct wl_" ++ r ++ " *") := by
  refine ⟨?_, ?_, ?_, ?_⟩
  · simp [emit_header, emit_header_loop_eq, emit_header_declarations_eq]
  · simp only [emit_header, emit_header_loop_eq, calls_of_append, calls_of_flatMap,
      calls_of_declaration_emit_header_interface, emit_header_declarations_eq,
      calls_of_declaration_map, flatMap_nil_eq]
    simp [calls_of]
  · intro i
    refine ⟨?_, ?_, ?_⟩ <;> simp [printf_call.text, format, String.ext_iff]
  · intro a r h1 h2
    rw [emit_structs_type_text]
    unfold spec_parameter_type
    rw [h1, h2]
    rfl

/-! ## C12, C13, C14 and C16: other tags, the scenario, the mode argument -/

/-- C12. For every tag other than `interface`, `request`, `event` and `arg`, every
builder state and every attribute list, handling the element succeeds and returns the
builder state as it was: the protocol, the current interface and the current message. -/
theorem start_element_other_tag (ctx : parse_context) (element_name : String)
    (atts : List (String × String))
    (h1 : element_name ≠ "interface") (h2 : element_name ≠ "request")
    (h3 : element_name ≠ "event") (h4 : element_name ≠ "arg") :
    start_element ctx element_name atts = .ok ctx := by
  simp [start_element, h1, h2, h3, h4]

/-- Witness of `start_element_other_tag`: a `description` element that carries `name`,
`version` and `type` attributes. -/
theorem start_element_other_tag_witness :
    ("description" : String) ≠ "interface" ∧ ("description" : String) ≠ "request"
    ∧ ("description" : String) ≠ "event" ∧ ("description" : String) ≠ "arg"
    ∧ start_element demo_context "description"
          [("name", "x"), ("version", "0"), ("type", "int")]
        = .ok demo_context :=
  ⟨by decide, by decide, by decide, by decide,
   start_element_other_tag demo_context "description"
     [("name", "x"), ("version", "0"), ("type", "int")]
     (by decide) (by decide) (by decide) (by decide)⟩

set_option maxRecDepth 100000 in
/-- C13, as the code has it. For the scenario schema, the server header is what
`emit_header` writes for the protocol with the one interface `wl_demo`; the block of the
interface is the struct `wl_wl_demo_interface` with the one member `destroy`, whose
parameters are `struct wl_client *client` and `struct wl_wl_demo *wl_demo`, then the
opcode constant `WL_WL_DEMO_DONE` with the value 0 after a tab, then the `extern`
declaration; the output text contains the struct and the `#define` line. -/
theorem demo_server_header :
    main ["scanner", "server-header"] demo_input
      = some { stdout := emit_header demo_protocol 1, stderr := [], status := 0 }
    ∧ stdout_text (emit_header_interface 1 demo_interface)
        = "struct wl_wl_demo_interface \x7b\n"
          ++ "\tvoid (*destroy)(struct wl_client *client, struct wl_wl_demo *wl_demo);\n"
          ++ "\x7d;\n\n"
          ++ "#define WL_WL_DEMO_DONE\t0\n\n"
          ++ "extern const struct wl_interface wl_wl_demo_interface;\n\n"
    ∧ contains_text (stdout_text (emit_header demo_protocol 1))
        ("struct wl_wl_demo_interface \x7b\n"
          ++ "\tvoid (*destroy)(struct wl_client *client, struct wl_wl_demo *wl_demo);\n"
          ++ "\x7d;\n") = true
    ∧ contains_text (stdout_text (emit_header demo_protocol 1))
        "#define WL_WL_DEMO_DONE\t0\n" = true
    ∧ opcode_constants (emit_header demo_protocol 1) = [("WL_DEMO", "DONE", 0)] := by
  refine ⟨rfl, by decide, by decide, by decide, by decide⟩

set_option maxRecDepth 100000 in
/-- C13 fails as stated: the server header of the scenario schema contains neither a
struct named `wl_demo_interface` nor a definition of `WL_DEMO_DONE`; every identifier is
built with `wl_` (`WL_`) in front of the interface name `wl_demo`. -/
theorem demo_server_header_has_no_unprefixed_names :
    main ["scanner", "server-header"] demo_input
      = some { stdout := emit_header demo_protocol 1, stderr := [], status := 0 }
    ∧ contains_text (stdout_text (emit_header demo_protocol 1))
        "struct wl_demo_interface" = false
    ∧ contains_text (stdout_text (emit_header demo_protocol 1))
        "#define WL_DEMO_DONE" = false := by
  refine ⟨rfl, by decide, by decide⟩

set_option maxRecDepth 100000 in
/-- C14. For the scenario schema, the code output is what `emit_code` writes for the
protocol with the one interface `wl_demo`; its text contains the events table
`wl_demo_events` with the row of `done` and the signature `u`, the requests table
`wl_demo_requests` with the row of `destroy` and the empty signature, and the descriptor
with the name "wl_demo", the version 3, the request count `ARRAY_LENGTH(wl_demo_requests)`
with the reference `wl_demo_requests` and the event count `ARRAY_LENGTH(wl_demo_events)`
with the reference `wl_demo_events`; each of the two tables has one row, so both counts
are 1. -/
theorem demo_code :
    main ["scanner", "code"] demo_input
      = some { stdout := emit_code demo_protocol, stderr := [], status := 0 }
    ∧ contains_text (stdout_text (emit_code demo_protocol))
        ("static const struct wl_message wl_demo_events[] = \x7b\n"
          ++ "\t\x7b \"done\", \"u\" \x7d,\n"
          ++ "\x7d;\n") = true
    ∧ contains_text (stdout_text (emit_code demo_protocol))
        ("static const struct wl_message wl_demo_requests[] = \x7b\n"
          ++ "\t\x7b \"destroy\", \"\" \x7d,\n"
          ++ "\x7d;\n") = true
    ∧ contains_text (stdout_text (emit_code demo_protocol))
        ("WL_EXPORT const struct wl_interface wl_wl_demo_interface = \x7b\n"
          ++ "\t\"wl_demo\", 3,\n"
          ++ "\tARRAY_LENGTH(wl_demo_requests), wl_demo_requests,\n"
          ++ "\tARRAY_LENGTH(wl_demo_events), wl_demo_events,\n"
          ++ "\x7d;\n") = true
    ∧ ARRAY_LENGTH (table_row_names
        (emit_messages demo_interface.request_list demo_interface "requests")) = 1
    ∧ ARRAY_LENGTH (table_row_names
        (emit_messages demo_interface.event_list demo_interface "events")) = 1 := by
  refine ⟨rfl, by decide, by decide, by decide, by decide, by decide⟩

/-- C16 (the code departs from the claim). With the mode argument `header`, which is
none of `client-header`, `server-header` and `code` (and which the usage line names),
and an empty input, `main` prints no usage message, writes nothing and returns the
status 0; so it does for every unknown mode and every accepted input. Only a wrong
number of arguments reaches `usage`: with no mode argument the run ends with the usage
line on standard error, nothing on standard output and the status `EXIT_FAILURE`. -/
theorem main_unknown_mode :
    main ["scanner", "header"] [] = some { stdout := [], stderr := [], status := 0 }
    ∧ (∀ program mode input ctx, mode ≠ "client-header" → mode ≠ "server-header" →
        mode ≠ "code" → parse initial_context input = .ok ctx →
        main [program, mode] input = some { stdout := [], stderr := [], status := 0 })
    ∧ (∀ program input,
        main [program] input
          = some { stdout := [], stderr := ["usage: ./scanner [header|code]\n"],
                   status := EXIT_FAILURE }) := by
  refine ⟨rfl, ?_, ?_⟩
  · intro program mode input ctx h1 h2 h3 hparse
    simp [main, hparse, h1, h2, h3]
  · intro program input
    simp [main, usage, failure.result]

/-! ## C6: the code block against the header blocks -/

theorem table_rows_from_emit_messages_args (l : List arg) (tail : List printf_call) :
    table_rows_from (emit_messages_args l ++ tail) = table_rows_from tail := by
  induction l with
  | nil => rfl
  | cons a rest ih =>
    simp only [emit_messages_args, emit_messages_type, List.cons_append]
    cases a.type <;> simp [table_rows_from, ih]

theorem table_rows_from_emit_messages_loop (l : List message) (tail : List printf_call) :
    table_rows_from (emit_messages_loop l ++ printf "\x7d;\n\n" [] :: tail)
      = l.map fun m => m.name := by
  induction l with
  | nil => simp [emit_messages_loop, table_rows_from]
  | cons m rest ih =>
    have hE : emit_messages_loop (m :: rest) ++ printf "\x7d;\n\n" [] :: tail
        = printf "\t\x7b \"%s\", \"" [.s m.name]
          :: (emit_messages_args m.arg_list
            ++ printf "\" \x7d,\n" []
              :: (emit_messages_loop rest ++ printf "\x7d;\n\n" [] :: tail)) := by
      simp [emit_messages_loop, emit_messages_message]
    have h1 : ∀ X : List printf_call,
        table_rows_from (printf "\t\x7b \"%s\", \"" [.s m.name] :: X)
          = m.name :: table_rows_from X := by
      intro X
      simp [table_rows_from]
    have h2 : ∀ X : List printf_call,
        table_rows_from (printf "\" \x7d,\n" [] :: X) = table_rows_from X := by
      intro X
      simp [table_rows_from]
    rw [hE, h1, table_rows_from_emit_messages_args, h2, ih]
    rfl

theorem table_rows_skip (interface_name suffix : String) (a tail : List printf_call)
    (h : ∀ c ∈ a, c ≠ printf "static const struct wl_message %s_%s[] = \x7b\n"
        [.s interface_name, .s suffix]) :
    table_rows interface_name suffix (a ++ tail) = table_rows interface_name suffix tail := by
  induction a with
  | nil => rfl
  | cons c rest ih =>
    simp only [List.cons_append, table_rows]
    rw [if_neg (h c (List.mem_cons_self _ _))]
    exact ih fun d hd => h d (List.mem_cons_of_mem _ hd)

theorem table_rows_emit_messages (l : List message) (i : interface) (suffix : String)
    (tail : List printf_call) (h : l ≠ []) :
    table_rows i.name suffix (emit_messages l i suffix ++ tail) = l.map fun m => m.name := by
  cases l with
  | nil => exact absurd rfl h
  | cons m rest =>
    have hE : emit_messages (m :: rest) i suffix ++ tail
        = printf "static const struct wl_message %s_%s[] = \x7b\n" [.s i.name, .s suffix]
          :: (emit_messages_loop (m :: rest) ++ printf "\x7d;\n\n" [] :: tail) := by
      simp [emit_messages]
    rw [hE, table_rows, if_pos rfl]
    exact table_rows_from_emit_messages_loop (m :: rest) tail

theorem emit_messages_args_no_args (l : List arg) :
    ∀ c ∈ emit_messages_args l, c.args = [] := by
  induction l with
  | nil => simp [emit_messages_args]
  | cons a rest ih =>
    intro c hc
    simp only [emit_messages_args, List.mem_cons] at hc
    rcases hc with hc | hc
    · subst hc
      unfold emit_messages_type
      cases a.type <;> rfl
    · exact ih c hc

theorem emit_messages_ne_opening (l : List message) (i : interface)
    (suffix other : String) (h : suffix ≠ other) :
    ∀ c ∈ emit_messages l i suffix,
      c ≠ printf "static const struct wl_message %s_%s[] = \x7b\n" [.s i.name, .s other] := by
  intro c hc
  unfold emit_messages at hc
  split at hc
  · simp at hc
  · simp only [emit_messages_loop_eq, List.mem_append, List.mem_singleton,
      List.mem_flatMap, emit_messages_message] at hc
    rcases hc with (hc | ⟨m, _, (hc | hc) | hc⟩) | hc
    · subst hc
      simp [h]
    · subst hc; simp
    · have := emit_messages_args_no_args _ c hc
      intro heq
      rw [heq] at this
      simp at this
    · subst hc; simp
    · subst hc; simp

theorem descriptor_fields_skip (a tail : List printf_call) (formats : List String)
    (h : ∀ c ∈ a, c.fmt ∈ formats)
    (hf : "WL_EXPORT const struct wl_interface wl_%s_interface = \x7b\n\t\"%s\", %d,\n"
      ∉ formats) :
    descriptor_fields (a ++ tail) = descriptor_fields tail := by
  induction a with
  | nil => rfl
  | cons c rest ih =>
    simp only [List.cons_append, descriptor_fields]
    have hc := h c (List.mem_cons_self _ _)
    rw [if_neg (by intro heq; rw [heq] at hc; exact hf hc)]
    exact ih fun d hd => h d (List.mem_cons_of_mem _ hd)

theorem table_rows_code_block (i : interface) (block : List printf_call)
    (hblock : block
      = emit_messages i.request_list i "requests"
        ++ (emit_messages i.event_list i "events"
          ++ [printf "WL_EXPORT const struct wl_interface wl_%s_interface = \x7b\n\t\"%s\", %d,\n"
                [.s i.name, .s i.name, .d i.version],
              emit_code_requests i, emit_code_events i, printf "\x7d;\n\n" []])) :
    table_rows i.name "requests" block = i.request_list.map (fun m => m.name)
    ∧ table_rows i.name "events" block = i.event_list.map (fun m => m.name) := by
  have htail : ∀ (suffix : String) (rf ef : printf_call),
      table_rows i.name suffix
        [printf "WL_EXPORT const struct wl_interface wl_%s_interface = \x7b\n\t\"%s\", %d,\n"
            [.s i.name, .s i.name, .d i.version], rf, ef, printf "\x7d;\n\n" []] = []
      ∨ rf.fmt = "static const struct wl_message %s_%s[] = \x7b\n"
      ∨ ef.fmt = "static const struct wl_message %s_%s[] = \x7b\n" := by
    intro suffix rf ef
    by_cases h1 : rf.fmt = "static const struct wl_message %s_%s[] = \x7b\n"
    · exact Or.inr (Or.inl h1)
    by_cases h2 : ef.fmt = "static const struct wl_message %s_%s[] = \x7b\n"
    · exact Or.inr (Or.inr h2)
    left
    have e1 : rf ≠ printf "static const struct wl_message %s_%s[] = \x7b\n"
        [.s i.name, .s suffix] := fun h => h1 (h ▸ rfl)
    have e2 : ef ≠ printf "static const struct wl_message %s_%s[] = \x7b\n"
        [.s i.name, .s suffix] := fun h => h2 (h ▸ rfl)
    simp [table_rows, e1, e2]
  have hfields : ∀ suffix : String,
      table_rows i.name suffix
        [printf "WL_EXPORT const struct wl_interface wl_%s_interface = \x7b\n\t\"%s\", %d,\n"
            [.s i.name, .s i.name, .d i.version],
          emit_code_requests i, emit_code_events i, printf "\x7d;\n\n" []] = [] := by
    intro suffix
    rcases htail suffix (emit_code_requests i) (emit_code_events i) with h | h | h
    · exact h
    · unfold emit_code_requests at h
      split at h <;> simp at h
    · unfold emit_code_events at h
      split at h <;> simp at h
  rw [hblock]
  constructor
  · by_cases hreq : i.request_list = []
    · have hnil : emit_messages [] i "requests" = [] := rfl
      rw [hreq, hnil, List.nil_append, List.map_nil,
        table_rows_skip _ _ _ _
          (emit_messages_ne_opening i.event_list i "events" "requests" (by decide))]
      exact hfields "requests"
    · exact table_rows_emit_messages _ i "requests" _ hreq
  · rw [table_rows_skip _ _ _ _
      (emit_messages_ne_opening i.request_list i "requests" "events" (by decide))]
    by_cases hev : i.event_list = []
    · have hnil : emit_messages [] i "events" = [] := rfl
      rw [hev, hnil, List.nil_append, List.map_nil]
      exact hfields "events"
    · exact table_rows_emit_messages _ i "events" _ hev

theorem descriptor_fields_code_block (i : interface) (block : List printf_call)
    (hblock : block
      = emit_messages i.request_list i "requests"
        ++ (emit_messages i.event_list i "events"
          ++ [printf "WL_EXPORT const struct wl_interface wl_%s_interface = \x7b\n\t\"%s\", %d,\n"
                [.s i.name, .s i.name, .d i.version],
              emit_code_requests i, emit_code_events i, printf "\x7d;\n\n" []])) :
    descriptor_fields block = [emit_code_requests i, emit_code_events i] := by
  rw [hblock,
    descriptor_fields_skip _ _ _ (emit_messages_uses_formats _ i "requests") (by decide),
    descriptor_fields_skip _ _ _ (emit_messages_uses_formats _ i "events") (by decide)]
  have h1 : emit_code_requests i ≠ printf "\x7d;\n\n" [] := by
    unfold emit_code_requests
    split <;> simp
  have h2 : emit_code_events i ≠ printf "\x7d;\n\n" [] := by
    unfold emit_code_events
    split <;> simp
  simp [descriptor_fields, descriptor_fields_from, h1, h2]

theorem opcode_constants_eq_nil_iff (l : List message) (i : interface) :
    opcode_constants (emit_opcodes l i) = [] ↔ l = [] := by
  have h := opcode_constants_ne_nil_iff l i
  constructor
  · intro h1
    by_contra h2
    exact (h.mpr h2) h1
  · intro h1
    by_contra h2
    exact (h.mp h2) h1

/-- C6. For every protocol the scanner builds from its input and every interface `i` in
it, the code output contains the block `emit_code` writes for `i`, and the client and the
server header contain the blocks `emit_header` writes for `i`. The descriptor of the code
block has exactly two fields: the request fields, which are `0, NULL` when the client
header block defines no opcode constant and the reference
`ARRAY_LENGTH(<name>_requests), <name>_requests` otherwise, and the event fields, likewise
with the server header block and `<name>_events`. The rows of the table the code block
declares under `<name>_requests` and the opcode constants of the client header block are
equally many, and for every `k` the `k`-th constant exists exactly when the `k`-th row
does, its name parts are the uppercase of the interface name and the uppercase of the
message name of the `k`-th row, and its value is `k`. The same holds between the rows of
the table `<name>_events` of the code block and the opcode constants of the server header
block. -/
theorem code_rows_match_opcodes (input : List (String × List (String × String)))
    (ctx : parse_context) (i : interface)
    (hparse : parse initial_context input = .ok ctx)
    (hi : i ∈ ctx.protocol.interface_list) :
    List.IsInfix (emit_code_interface i) (emit_code ctx.protocol)
    ∧ List.IsInfix (emit_header_interface 0 i) (emit_header ctx.protocol 0)
    ∧ List.IsInfix (emit_header_interface 1 i) (emit_header ctx.protocol 1)
    ∧ descriptor_fields (emit_code_interface i)
        = [if opcode_constants (emit_header_interface 0 i) = [] then printf "\t0, NULL,\n" []
           else printf "\tARRAY_LENGTH(%s_requests), %s_requests,\n" [.s i.name, .s i.name],
           if opcode_constants (emit_header_interface 1 i) = [] then printf "\t0, NULL,\n" []
           else printf "\tARRAY_LENGTH(%s_events), %s_events,\n" [.s i.name, .s i.name]]
    ∧ (table_rows i.name "requests" (emit_code_interface i)).length
        = (opcode_constants (emit_header_interface 0 i)).length
    ∧ (∀ k : Nat, (opcode_constants (emit_header_interface 0 i))[k]?
        = (table_rows i.name "requests" (emit_code_interface i))[k]?.map
            fun name => (uppercase_dup i.name, uppercase_dup name, (k : Int)))
    ∧ (table_rows i.name "events" (emit_code_interface i)).length
        = (opcode_constants (emit_header_interface 1 i)).length
    ∧ (∀ k : Nat, (opcode_constants (emit_header_interface 1 i))[k]?
        = (table_rows i.name "events" (emit_code_interface i))[k]?.map
            fun name => (uppercase_dup i.name, uppercase_dup name, (k : Int))) := by
  obtain ⟨_, hu, hreq, hev⟩ := parse_initial_built input ctx hparse i hi
  have hblock : emit_code_interface i
      = emit_messages i.request_list i "requests"
        ++ (emit_messages i.event_list i "events"
          ++ [printf "WL_EXPORT const struct wl_interface wl_%s_interface = \x7b\n\t\"%s\", %d,\n"
                [.s i.name, .s i.name, .d i.version],
              emit_code_requests i, emit_code_events i, printf "\x7d;\n\n" []]) := by
    simp [emit_code_interface]
  have hclient : emit_header_interface 0 i
      = emit_structs .event_list i ++ emit_opcodes i.request_list i
        ++ [printf "extern const struct wl_interface wl_%s_interface;\n\n" [.s i.name]] := by
    simp [emit_header_interface]
  have hserver : emit_header_interface 1 i
      = emit_structs .request_list i ++ emit_opcodes i.event_list i
        ++ [printf "extern const struct wl_interface wl_%s_interface;\n\n" [.s i.name]] := by
    simp [emit_header_interface]
  have hx : opcode_constants
      [printf "extern const struct wl_interface wl_%s_interface;\n\n" [.s i.name]] = [] := by
    simp [opcode_constants]
  have h0 : opcode_constants (emit_header_interface 0 i)
      = opcode_constants (emit_opcodes i.request_list i) := by
    rw [hclient, opcode_constants_append, opcode_constants_append,
      opcode_constants_emit_structs, hx, List.nil_append, List.append_nil]
  have h1 : opcode_constants (emit_header_interface 1 i)
      = opcode_constants (emit_opcodes i.event_list i) := by
    rw [hserver, opcode_constants_append, opcode_constants_append,
      opcode_constants_emit_structs, hx, List.nil_append, List.append_nil]
  have hrows : ∀ (l : List message) (k : Nat), (∀ m ∈ l, message_built m) →
      (opcode_constants (emit_opcodes l i))[k]?
        = (l.map fun m => m.name)[k]?.map
            fun name => (uppercase_dup i.name, uppercase_dup name, (k : Int)) := by
    intro l k hl
    have := rows_match_opcodes l i "" hu hl k
    rw [table_row_names_emit_messages] at this
    exact this
  rw [h0, h1, (table_rows_code_block i _ hblock).1, (table_rows_code_block i _ hblock).2,
    descriptor_fields_code_block i _ hblock]
  refine ⟨emit_code_interface_isInfix _ i hi, emit_header_interface_isInfix _ 0 i hi,
    emit_header_interface_isInfix _ 1 i hi, ?_, ?_, ?_, ?_, ?_⟩
  · congr 1
    · by_cases h : i.request_list = []
      · rw [if_pos ((opcode_constants_eq_nil_iff _ i).mpr h)]
        exact (emit_code_requests_eq_null_iff i).mpr h
      · rw [if_neg (fun hn => h ((opcode_constants_eq_nil_iff _ i).mp hn))]
        cases hl : i.request_list with
        | nil => exact absurd hl h
        | cons m rest => simp [emit_code_requests, hl]
    · congr 1
      by_cases h : i.event_list = []
      · rw [if_pos ((opcode_constants_eq_nil_iff _ i).mpr h)]
        exact (emit_code_events_eq_null_iff i).mpr h
      · rw [if_neg (fun hn => h ((opcode_constants_eq_nil_iff _ i).mp hn))]
        cases hl : i.event_list with
        | nil => exact absurd hl h
        | cons m rest => simp [emit_code_events, hl]
  · rw [opcode_constants_emit_opcodes, opcode_constants_emit_opcodes_loop_length,
      List.length_map]
  · exact fun k => hrows _ k hreq
  · rw [opcode_constants_emit_opcodes, opcode_constants_emit_opcodes_loop_length,
      List.length_map]
  · exact fun k => hrows _ k hev

/-- Witness of `code_rows_match_opcodes`: the scenario of the specification, with the
tables, the descriptor fields and the opcode constants of its blocks computed. -/
theorem code_rows_match_opcodes_witness :
    parse initial_context demo_input = .ok demo_context
    ∧ demo_interface ∈ demo_context.protocol.interface_list
    ∧ descriptor_fields (emit_code_interface demo_interface)
        = [if opcode_constants (emit_header_interface 0 demo_interface) = [] then
             printf "\t0, NULL,\n" []
           else printf "\tARRAY_LENGTH(%s_requests), %s_requests,\n"
             [.s demo_interface.name, .s demo_interface.name],
           if opcode_constants (emit_header_interface 1 demo_interface) = [] then
             printf "\t0, NULL,\n" []
           else printf "\tARRAY_LENGTH(%s_events), %s_events,\n"
             [.s demo_interface.name, .s demo_interface.name]]
    ∧ (table_rows demo_interface.name "requests" (emit_code_interface demo_interface)).length
        = (opcode_constants (emit_header_interface 0 demo_interface)).length
    ∧ table_rows "wl_demo" "requests" (emit_code_interface demo_interface) = ["destroy"]
    ∧ table_rows "wl_demo" "events" (emit_code_interface demo_interface) = ["done"]
    ∧ opcode_constants (emit_header_interface 0 demo_interface)
        = [("WL_DEMO", "DESTROY", 0)]
    ∧ opcode_constants (emit_header_interface 1 demo_interface) = [("WL_DEMO", "DONE", 0)]
    ∧ descriptor_fields (emit_code_interface demo_interface)
        = [printf "\tARRAY_LENGTH(%s_requests), %s_requests,\n" [.s "wl_demo", .s "wl_demo"],
           printf "\tARRAY_LENGTH(%s_events), %s_events,\n" [.s "wl_demo", .s "wl_demo"]] :=
  ⟨rfl, by simp [demo_context],
   (code_rows_match_opcodes demo_input demo_context demo_interface rfl
      (by simp [demo_context])).2.2.2.1,
   (code_rows_match_opcodes demo_input demo_context demo_interface rfl
      (by simp [demo_context])).2.2.2.2.1,
   by decide, by decide, by decide, by decide, by decide⟩

end Scanner
